import Mathlib

/-!
Verification of the grafana-zabbix backend plugin (Go sources under `pkg/`)
against its natural-language specification.

The Go code is shallowly embedded: pure fragments become Lean functions,
the stateful auth-retry loop becomes explicit state passing over an oracle
describing the remote API, and fallible code returns `Except`/`Option`.
Go `panic` (nil-map dereference, out-of-bounds index, nil function call)
is modelled as `Option.none`. Go `int64` arithmetic is modelled on `Int`
(the values involved are far from overflow), and Go's truncating integer
division is `Int.tdiv`.
-/

namespace GrafanaZabbix

/-! ## Time-range strategy selection (`isUseTrend`, datasource.go lines 616-624)

Go source:
```
func isUseTrend(timeRange *datasource.TimeRange) bool {
    fromSec := timeRange.GetFromEpochMs() / 1000
    toSec := timeRange.GetToEpochMs() / 1000
    if (fromSec < time.Now().Add(time.Hour*-7*24).Unix()) ||
        (toSec-fromSec > (4 * 24 * time.Hour).Milliseconds()) {
        return true
    }
    return false
}
```
`time.Now()` is passed explicitly as `nowSec` (Unix seconds).
`(4 * 24 * time.Hour).Milliseconds()` is the constant 345600000.
-/

def isUseTrend (nowSec fromEpochMs toEpochMs : Int) : Bool :=
  let fromSec := fromEpochMs.tdiv 1000
  let toSec := toEpochMs.tdiv 1000
  decide (fromSec < nowSec - 7 * 24 * 3600) || decide (toSec - fromSec > 345600000)

/-- The decision the specification describes: use trend data iff `from` is
more than 7 days in the past, or the span `to - from` exceeds 4 days.
All quantities in epoch milliseconds (`nowMs` is the current time). -/
def isUseTrendClaim (nowMs fromEpochMs toEpochMs : Int) : Bool :=
  decide (nowMs - fromEpochMs > 7 * 24 * 3600 * 1000) ||
    decide (toEpochMs - fromEpochMs > 4 * 24 * 3600 * 1000)

/-- C1: the three example ranges of the spec are decided as the spec says
(now-48h..now-12h ↦ false, now-14d..now-13d ↦ true, now-8d..now-1d ↦ true,
evaluated at now = 1700000000s), but the claimed "span > 4 days" disjunct
fails on the code: for `from = now-5d, to = now` the spec demands trend
(span 5d > 4d) while the code answers false, because it compares the span
in seconds against `(4 * 24 * time.Hour).Milliseconds()`. -/
theorem isUseTrend_units_bug :
    (isUseTrend 1700000000 (1700000000000 - 48 * 3600000) (1700000000000 - 12 * 3600000) = false ∧
      isUseTrend 1700000000 (1700000000000 - 14 * 86400000) (1700000000000 - 13 * 86400000) = true ∧
      isUseTrend 1700000000 (1700000000000 - 8 * 86400000) (1700000000000 - 1 * 86400000) = true) ∧
    isUseTrendClaim 1700000000000 (1700000000000 - 5 * 86400000) 1700000000000 = true ∧
    isUseTrend 1700000000 (1700000000000 - 5 * 86400000) 1700000000000 = false := by
  decide

/-! ## Authenticating request loop (`RawRequest`, api_client.go lines 58-80)

Go source:
```
for attempt := 0; attempt <= 3; attempt++ {
    if ds.authToken == "" {
        auth, err := ds.loginWithDs(ctx, dsInfo)
        if err != nil {
            return nil, fmt.Errorf("Authentication failure: %w", err)
        }
        ds.authToken = auth
    }
    result, err = ds.zabbixAPIRequest(ctx, zabbixURL, method, params, ds.authToken)
    if err == nil || (err != nil && !isNotAuthorized(err.Error())) {
        break
    } else {
        ds.authToken = ""
    }
}
return result, err
```
The remote side (`loginWithDs` and `zabbixAPIRequest`) is abstracted as an
oracle giving, for each loop iteration, the outcome of the login and of the
JSON-RPC call.  The embedding also records the trace of network operations
performed, so that "at most 4 attempts" and "login happens before the call"
are statable. -/

/-- api_client.go lines 222-226, verbatim. -/
def isNotAuthorized (message : String) : Bool :=
  message == "Session terminated, re-login, please." ||
    message == "Not authorised." ||
    message == "Not authorized."

/-- One network operation performed by `RawRequest`: a login or a JSON-RPC
call carrying the token used, tagged with the loop iteration counter. -/
inductive ApiEvent
  | login (attempt : Nat)
  | call (attempt : Nat) (token : String)
deriving DecidableEq, Repr

/-- Outcome of `RawRequest`: an aborted login (`authFailure` wraps the login
error like `fmt.Errorf("Authentication failure: %w", err)`), a successful
call, or a call error returned as-is. -/
inductive RawResult
  | authFailure (msg : String)
  | ok (res : String)
  | err (msg : String)
deriving DecidableEq, Repr

/-- The remote API as seen by one `RawRequest` invocation: the result of the
login attempted in iteration `i`, and the result of the JSON-RPC call of
iteration `i` issued with a given token. -/
structure ApiOracle where
  login : Nat → Except String String
  call : Nat → String → Except String String

/-- The `for attempt := 0; attempt <= 3` loop body, recursing on the number
of remaining iterations.  `tok` is `ds.authToken`, `lastErr` the `err`
variable that survives the loop when it exhausts its iterations, `tr` the
trace of operations performed so far.  Returns the result, the final value
of `ds.authToken`, and the trace. -/
def rawRequestLoop (o : ApiOracle) :
    Nat → Nat → String → String → List ApiEvent → RawResult × String × List ApiEvent
  | 0, _, tok, lastErr, tr => (.err lastErr, tok, tr)
  | r + 1, attempt, tok, _, tr =>
    match (if tok = "" then o.login attempt else .ok tok) with
    | .error e => (.authFailure ("Authentication failure: " ++ e), tok, tr)
    | .ok tok' =>
      let tr' := (if tok = "" then tr ++ [ApiEvent.login attempt] else tr) ++
        [ApiEvent.call attempt tok']
      match o.call attempt tok' with
      | .ok res => (.ok res, tok', tr')
      | .error e =>
        if isNotAuthorized e then rawRequestLoop o r (attempt + 1) "" e tr'
        else (.err e, tok', tr')

/-- `RawRequest` entered with auth token `tok` (possibly empty). -/
def rawRequest (o : ApiOracle) (tok : String) : RawResult × String × List ApiEvent :=
  rawRequestLoop o 4 0 tok "" []

/-- Number of JSON-RPC call attempts in a trace. -/
def callCount (tr : List ApiEvent) : Nat :=
  (tr.filter fun e => match e with | .call _ _ => true | _ => false).length

/-! Step equations for `rawRequestLoop`, used to unfold one loop iteration
at a time (the fuel stays a variable so rewriting is controlled). -/

theorem rawRequestLoop_zero (o : ApiOracle) (attempt : Nat) (tok lastErr : String)
    (tr : List ApiEvent) :
    rawRequestLoop o 0 attempt tok lastErr tr = (.err lastErr, tok, tr) := rfl

theorem rawRequestLoop_authFail {o : ApiOracle} (r attempt : Nat) (lastErr : String)
    (tr : List ApiEvent) {e : String} (hl : o.login attempt = .error e) :
    rawRequestLoop o (r + 1) attempt "" lastErr tr =
      (.authFailure ("Authentication failure: " ++ e), "", tr) := by
  simp [rawRequestLoop, hl]

theorem rawRequestLoop_login_ok {o : ApiOracle} (r attempt : Nat) (lastErr : String)
    (tr : List ApiEvent) {t res : String} (hl : o.login attempt = .ok t)
    (hc : o.call attempt t = .ok res) :
    rawRequestLoop o (r + 1) attempt "" lastErr tr =
      (.ok res, t, tr ++ [.login attempt, .call attempt t]) := by
  simp [rawRequestLoop, hl, hc]

theorem rawRequestLoop_login_err {o : ApiOracle} (r attempt : Nat) (lastErr : String)
    (tr : List ApiEvent) {t e : String} (hl : o.login attempt = .ok t)
    (hc : o.call attempt t = .error e) (hna : isNotAuthorized e = false) :
    rawRequestLoop o (r + 1) attempt "" lastErr tr =
      (.err e, t, tr ++ [.login attempt, .call attempt t]) := by
  simp [rawRequestLoop, hl, hc, hna]

theorem rawRequestLoop_login_unauth {o : ApiOracle} (r attempt : Nat) (lastErr : String)
    (tr : List ApiEvent) {t e : String} (hl : o.login attempt = .ok t)
    (hc : o.call attempt t = .error e) (hna : isNotAuthorized e = true) :
    rawRequestLoop o (r + 1) attempt "" lastErr tr =
      rawRequestLoop o r (attempt + 1) "" e (tr ++ [.login attempt, .call attempt t]) := by
  simp [rawRequestLoop, hl, hc, hna]

theorem rawRequestLoop_tok_ok {o : ApiOracle} (r attempt : Nat) (lastErr : String)
    (tr : List ApiEvent) {tok res : String} (htok : ¬tok = "")
    (hc : o.call attempt tok = .ok res) :
    rawRequestLoop o (r + 1) attempt tok lastErr tr =
      (.ok res, tok, tr ++ [.call attempt tok]) := by
  simp [rawRequestLoop, htok, hc]

theorem rawRequestLoop_tok_err {o : ApiOracle} (r attempt : Nat) (lastErr : String)
    (tr : List ApiEvent) {tok e : String} (htok : ¬tok = "")
    (hc : o.call attempt tok = .error e) (hna : isNotAuthorized e = false) :
    rawRequestLoop o (r + 1) attempt tok lastErr tr =
      (.err e, tok, tr ++ [.call attempt tok]) := by
  simp [rawRequestLoop, htok, hc, hna]

theorem rawRequestLoop_tok_unauth {o : ApiOracle} (r attempt : Nat) (lastErr : String)
    (tr : List ApiEvent) {tok e : String} (htok : ¬tok = "")
    (hc : o.call attempt tok = .error e) (hna : isNotAuthorized e = true) :
    rawRequestLoop o (r + 1) attempt tok lastErr tr =
      rawRequestLoop o r (attempt + 1) "" e (tr ++ [.call attempt tok]) := by
  simp [rawRequestLoop, htok, hc, hna]

theorem callCount_append (l₁ l₂ : List ApiEvent) :
    callCount (l₁ ++ l₂) = callCount l₁ + callCount l₂ := by
  simp [callCount]

theorem rawRequestLoop_trace_mono (o : ApiOracle) (r : Nat) :
    ∀ (attempt : Nat) (tok lastErr : String) (tr : List ApiEvent),
      ∃ s, (rawRequestLoop o r attempt tok lastErr tr).2.2 = tr ++ s := by
  induction r with
  | zero => intro attempt tok lastErr tr; exact ⟨[], by simp [rawRequestLoop_zero]⟩
  | succ r ih =>
    intro attempt tok lastErr tr
    by_cases htok : tok = ""
    · subst htok
      cases hl : o.login attempt with
      | error e => exact ⟨[], by rw [rawRequestLoop_authFail r attempt lastErr tr hl]; simp⟩
      | ok t =>
        cases hc : o.call attempt t with
        | ok res =>
          exact ⟨[.login attempt, .call attempt t],
            by rw [rawRequestLoop_login_ok r attempt lastErr tr hl hc]⟩
        | error e =>
          cases hna : isNotAuthorized e with
          | false =>
            exact ⟨[.login attempt, .call attempt t],
              by rw [rawRequestLoop_login_err r attempt lastErr tr hl hc hna]⟩
          | true =>
            obtain ⟨s, hs⟩ := ih (attempt + 1) "" e
              (tr ++ [.login attempt, .call attempt t])
            exact ⟨[.login attempt, .call attempt t] ++ s,
              by rw [rawRequestLoop_login_unauth r attempt lastErr tr hl hc hna, hs]; simp⟩
    · cases hc : o.call attempt tok with
      | ok res =>
        exact ⟨[.call attempt tok], by rw [rawRequestLoop_tok_ok r attempt lastErr tr htok hc]⟩
      | error e =>
        cases hna : isNotAuthorized e with
        | false =>
          exact ⟨[.call attempt tok],
            by rw [rawRequestLoop_tok_err r attempt lastErr tr htok hc hna]⟩
        | true =>
          obtain ⟨s, hs⟩ := ih (attempt + 1) "" e (tr ++ [.call attempt tok])
          exact ⟨[.call attempt tok] ++ s,
            by rw [rawRequestLoop_tok_unauth r attempt lastErr tr htok hc hna, hs]; simp⟩

theorem rawRequestLoop_callCount (o : ApiOracle) (r : Nat) :
    ∀ (attempt : Nat) (tok lastErr : String) (tr : List ApiEvent),
      callCount (rawRequestLoop o r attempt tok lastErr tr).2.2 ≤ callCount tr + r := by
  induction r with
  | zero => intro attempt tok lastErr tr; simp [rawRequestLoop_zero]
  | succ r ih =>
    intro attempt tok lastErr tr
    by_cases htok : tok = ""
    · subst htok
      cases hl : o.login attempt with
      | error e => rw [rawRequestLoop_authFail r attempt lastErr tr hl]; simp
      | ok t =>
        cases hc : o.call attempt t with
        | ok res =>
          rw [rawRequestLoop_login_ok r attempt lastErr tr hl hc, callCount_append]
          simp [callCount]
        | error e =>
          cases hna : isNotAuthorized e with
          | false =>
            rw [rawRequestLoop_login_err r attempt lastErr tr hl hc hna, callCount_append]
            simp [callCount]
          | true =>
            rw [rawRequestLoop_login_unauth r attempt lastErr tr hl hc hna]
            have := ih (attempt + 1) "" e (tr ++ [.login attempt, .call attempt t])
            rw [callCount_append] at this
            simp only [callCount, List.filter, List.length] at this ⊢
            omega
    · cases hc : o.call attempt tok with
      | ok res =>
        rw [rawRequestLoop_tok_ok r attempt lastErr tr htok hc, callCount_append]
        simp [callCount]
      | error e =>
        cases hna : isNotAuthorized e with
        | false =>
          rw [rawRequestLoop_tok_err r attempt lastErr tr htok hc hna, callCount_append]
          simp [callCount]
        | true =>
          rw [rawRequestLoop_tok_unauth r attempt lastErr tr htok hc hna]
          have := ih (attempt + 1) "" e (tr ++ [.call attempt tok])
          rw [callCount_append] at this
          simp only [callCount, List.filter, List.length] at this ⊢
          omega

/-- C2: the `RawRequest` loop (a) makes at most 4 call attempts; (b) with no
token held, logs in first and issues the call with the obtained token; (c)
a successful call ends the loop at once with its result; (d) a call error
that is not one of the known unauthorized messages ends the loop at once
and is returned as-is; (e) a call error exactly matching a known
unauthorized message clears the token, so the next iteration re-logs-in and
retries with the fresh token; (f) when every attempt fails unauthorized,
all 4 attempts are made and the last error is returned. -/
theorem rawRequest_spec (o : ApiOracle) (tok : String) :
    callCount (rawRequest o tok).2.2 ≤ 4 ∧
    (∀ t, tok = "" → o.login 0 = .ok t →
      (rawRequest o tok).2.2.take 2 = [.login 0, .call 0 t]) ∧
    (∀ r, tok ≠ "" → o.call 0 tok = .ok r →
      rawRequest o tok = (.ok r, tok, [.call 0 tok])) ∧
    (∀ e, tok ≠ "" → o.call 0 tok = .error e → isNotAuthorized e = false →
      rawRequest o tok = (.err e, tok, [.call 0 tok])) ∧
    (∀ e t', tok ≠ "" → o.call 0 tok = .error e → isNotAuthorized e = true →
      o.login 1 = .ok t' →
      (rawRequest o tok).2.2.take 3 = [.call 0 tok, .login 1, .call 1 t']) ∧
    (∀ (ltok : Nat → String) (emsg : Nat → String → String),
      (∀ i, o.login i = .ok (ltok i)) →
      (∀ i t, o.call i t = .error (emsg i t)) →
      (∀ i t, isNotAuthorized (emsg i t) = true) →
      tok = "" →
      rawRequest o tok = (.err (emsg 3 (ltok 3)), "",
        [.login 0, .call 0 (ltok 0), .login 1, .call 1 (ltok 1),
         .login 2, .call 2 (ltok 2), .login 3, .call 3 (ltok 3)])) := by
  have h4 : rawRequest o tok = rawRequestLoop o (3 + 1) 0 tok "" [] := rfl
  refine ⟨?_, ?_, ?_, ?_, ?_, ?_⟩
  · have := rawRequestLoop_callCount o 4 0 tok "" []
    simpa [rawRequest, callCount] using this
  · intro t htok hl
    subst htok
    rw [h4]
    cases hc : o.call 0 t with
    | ok res => rw [rawRequestLoop_login_ok 3 0 "" [] hl hc]; simp
    | error e =>
      cases hna : isNotAuthorized e with
      | false => rw [rawRequestLoop_login_err 3 0 "" [] hl hc hna]; simp
      | true =>
        rw [rawRequestLoop_login_unauth 3 0 "" [] hl hc hna]
        obtain ⟨s, hs⟩ := rawRequestLoop_trace_mono o 3 (0 + 1) "" e
          ([] ++ [.login 0, .call 0 t])
        rw [hs]
        simp
  · intro r htok hc
    rw [h4, rawRequestLoop_tok_ok 3 0 "" [] htok hc]
    simp
  · intro e htok hc hna
    rw [h4, rawRequestLoop_tok_err 3 0 "" [] htok hc hna]
    simp
  · intro e t' htok hc hna hl
    rw [h4, rawRequestLoop_tok_unauth 3 0 "" [] htok hc hna]
    have h3 : rawRequestLoop o 3 (0 + 1) "" e ([] ++ [ApiEvent.call 0 tok]) =
        rawRequestLoop o (2 + 1) (0 + 1) "" e ([] ++ [ApiEvent.call 0 tok]) := rfl
    rw [h3]
    have hl' : o.login (0 + 1) = .ok t' := hl
    cases hc' : o.call (0 + 1) t' with
    | ok res =>
      rw [rawRequestLoop_login_ok 2 (0 + 1) e ([] ++ [ApiEvent.call 0 tok]) hl' hc']
      simp
    | error e' =>
      cases hna' : isNotAuthorized e' with
      | false =>
        rw [rawRequestLoop_login_err 2 (0 + 1) e ([] ++ [ApiEvent.call 0 tok]) hl' hc' hna']
        simp
      | true =>
        rw [rawRequestLoop_login_unauth 2 (0 + 1) e ([] ++ [ApiEvent.call 0 tok]) hl' hc' hna']
        obtain ⟨s, hs⟩ := rawRequestLoop_trace_mono o 2 (0 + 1 + 1) "" e'
          ([] ++ [ApiEvent.call 0 tok] ++ [.login (0 + 1), .call (0 + 1) t'])
        rw [hs]
        simp
  · intro ltok emsg hlog hcall hna htok
    subst htok
    rw [h4, rawRequestLoop_login_unauth 3 0 "" [] (hlog 0) (hcall 0 (ltok 0)) (hna 0 (ltok 0))]
    have h3 : ∀ tr, rawRequestLoop o 3 (0 + 1) "" (emsg 0 (ltok 0)) tr =
        rawRequestLoop o (2 + 1) (0 + 1) "" (emsg 0 (ltok 0)) tr := fun _ => rfl
    rw [h3, rawRequestLoop_login_unauth 2 (0 + 1) _ _ (hlog (0 + 1))
      (hcall (0 + 1) (ltok (0 + 1))) (hna (0 + 1) (ltok (0 + 1)))]
    have h2 : ∀ tr, rawRequestLoop o 2 (0 + 1 + 1) "" (emsg (0 + 1) (ltok (0 + 1))) tr =
        rawRequestLoop o (1 + 1) (0 + 1 + 1) "" (emsg (0 + 1) (ltok (0 + 1))) tr :=
      fun _ => rfl
    rw [h2, rawRequestLoop_login_unauth 1 (0 + 1 + 1) _ _ (hlog (0 + 1 + 1))
      (hcall (0 + 1 + 1) (ltok (0 + 1 + 1))) (hna (0 + 1 + 1) (ltok (0 + 1 + 1)))]
    have h1 : ∀ tr, rawRequestLoop o 1 (0 + 1 + 1 + 1) "" (emsg (0 + 1 + 1) (ltok (0 + 1 + 1))) tr =
        rawRequestLoop o (0 + 1) (0 + 1 + 1 + 1) "" (emsg (0 + 1 + 1) (ltok (0 + 1 + 1))) tr :=
      fun _ => rfl
    rw [h1, rawRequestLoop_login_unauth 0 (0 + 1 + 1 + 1) _ _ (hlog (0 + 1 + 1 + 1))
      (hcall (0 + 1 + 1 + 1) (ltok (0 + 1 + 1 + 1))) (hna (0 + 1 + 1 + 1) (ltok (0 + 1 + 1 + 1))),
      rawRequestLoop_zero]
    norm_num

/-- Closed instantiations of `rawRequest_spec`, discharging each hypothesis
at concrete oracles: one where the first call succeeds after a login, one
where a non-authorization error aborts at once, and one where every call
fails with "Not authorised." so that all 4 attempts are made. -/
theorem rawRequest_spec_witness :
    (rawRequest ⟨fun _ => .ok "tokA", fun _ t => .ok ("res-" ++ t)⟩ "").2.2.take 2 =
      [.login 0, .call 0 "tokA"] ∧
    rawRequest ⟨fun _ => .ok "tokA", fun _ t => .ok ("res-" ++ t)⟩ "held" =
      (.ok "res-held", "held", [.call 0 "held"]) ∧
    rawRequest ⟨fun _ => .ok "tokA", fun _ _ => .error "boom"⟩ "held" =
      (.err "boom", "held", [.call 0 "held"]) ∧
    (rawRequest ⟨fun i => .ok (toString i), fun _ _ => .error "Not authorised."⟩ "held").2.2.take 3 =
      [.call 0 "held", .login 1, .call 1 "1"] ∧
    rawRequest ⟨fun i => .ok (toString i), fun _ _ => .error "Not authorised."⟩ "" =
      (.err "Not authorised.", "",
        [.login 0, .call 0 "0", .login 1, .call 1 "1",
         .login 2, .call 2 "2", .login 3, .call 3 "3"]) := by
  refine ⟨?_, ?_, ?_, ?_, ?_⟩
  · exact (rawRequest_spec ⟨fun _ => .ok "tokA", fun _ t => .ok ("res-" ++ t)⟩ "").2.1
      "tokA" rfl rfl
  · exact (rawRequest_spec ⟨fun _ => .ok "tokA", fun _ t => .ok ("res-" ++ t)⟩ "held").2.2.1
      "res-held" (by decide) rfl
  · exact (rawRequest_spec ⟨fun _ => .ok "tokA", fun _ _ => .error "boom"⟩ "held").2.2.2.1
      "boom" (by decide) rfl (by decide)
  · exact (rawRequest_spec ⟨fun i => .ok (toString i), fun _ _ => .error "Not authorised."⟩
      "held").2.2.2.2.1 "Not authorised." "1" (by decide) rfl (by decide) rfl
  · exact (rawRequest_spec ⟨fun i => .ok (toString i), fun _ _ => .error "Not authorised."⟩
      "").2.2.2.2.2 (fun i => toString i) (fun _ _ => "Not authorised.")
      (fun _ => rfl) (fun _ _ => rfl) (fun _ _ => rfl) rfl

/-! ## A small JSON model

`handleAPIResult` (api_client.go lines 188-201) and `TestConnection`
(datasource.go lines 358-381) call `encoding/json.Unmarshal`.  The fragment
of JSON they exercise is embedded here: a value grammar with objects,
arrays, strings (with the common escapes), integers/number literals,
booleans and null, parsed by a fueled recursive-descent parser.  Numeric
literals are kept verbatim (`JValue.num`), as `json.RawMessage` would. -/

inductive JValue where
  | null
  | bool (b : Bool)
  | num (lit : String)
  | str (s : String)
  | arr (elems : List JValue)
  | obj (fields : List (String × JValue))

def lbraceChar : Char := Char.ofNat 123
def rbraceChar : Char := Char.ofNat 125

def isWsChar (c : Char) : Bool :=
  c = ' ' || c = '\n' || c = '\t' || c = '\r'

def skipWs : List Char → List Char
  | [] => []
  | c :: cs => if isWsChar c then skipWs cs else c :: cs

def escChar? (c : Char) : Option Char :=
  if c = '"' then some '"'
  else if c = '\\' then some '\\'
  else if c = '/' then some '/'
  else if c = 'n' then some '\n'
  else if c = 't' then some '\t'
  else if c = 'r' then some '\r'
  else none

/-- Body of a JSON string, the opening quote already consumed; returns the
decoded characters and the input after the closing quote. -/
def parseStringBody : List Char → Option (List Char × List Char)
  | [] => none
  | c :: cs =>
    if c = '"' then some ([], cs)
    else if c = '\\' then
      match cs with
      | [] => none
      | e :: cs' =>
        match escChar? e with
        | none => none
        | some ec => (parseStringBody cs').map fun p => (ec :: p.1, p.2)
    else (parseStringBody cs).map fun p => (c :: p.1, p.2)

def takeDigits : List Char → List Char × List Char
  | [] => ([], [])
  | c :: cs =>
    if c.isDigit then
      let p := takeDigits cs
      (c :: p.1, p.2)
    else ([], c :: cs)

/-- A JSON number literal (sign, digits, optional fraction and exponent),
returned verbatim together with the rest of the input. -/
def parseNumberLit (s : List Char) : Option (List Char × List Char) := do
  let (sign, s1) :=
    match s with
    | c :: cs => if c = '-' then ([c], cs) else (([] : List Char), s)
    | [] => ([], s)
  let (ds, s2) := takeDigits s1
  if ds.isEmpty then none
  else
    let (frac, s3) ←
      match s2 with
      | c :: cs =>
        if c = '.' then
          let (fs, s3) := takeDigits cs
          if fs.isEmpty then none else some (c :: fs, s3)
        else some (([] : List Char), s2)
      | [] => some ([], s2)
    let (ex, s4) ←
      match s3 with
      | c :: cs =>
        if c = 'e' || c = 'E' then
          let (es, cs1) :=
            match cs with
            | c2 :: cs2 => if c2 = '+' || c2 = '-' then ([c2], cs2) else (([] : List Char), cs)
            | [] => ([], cs)
          let (eds, s4) := takeDigits cs1
          if eds.isEmpty then none else some (c :: (es ++ eds), s4)
        else some (([] : List Char), s3)
      | [] => some ([], s3)
    some (sign ++ ds ++ frac ++ ex, s4)

/-- `stripLit lit s` removes the exact literal `lit` from the front of `s`. -/
def stripLit : List Char → List Char → Option (List Char)
  | [], s => some s
  | _ :: _, [] => none
  | c :: cs, d :: ds => if c = d then stripLit cs ds else none

mutual

def parseValue : Nat → List Char → Option (JValue × List Char)
  | 0, _ => none
  | fuel + 1, s =>
    match skipWs s with
    | [] => none
    | c :: cs =>
      if c = '"' then
        (parseStringBody cs).map fun p => (.str (String.mk p.1), p.2)
      else if c = lbraceChar then
        match skipWs cs with
        | d :: ds => if d = rbraceChar then some (.obj [], ds) else parseMembers fuel (d :: ds) []
        | [] => none
      else if c = '[' then
        match skipWs cs with
        | d :: ds => if d = ']' then some (.arr [], ds) else parseElems fuel (d :: ds) []
        | [] => none
      else
        match stripLit ['t', 'r', 'u', 'e'] (c :: cs) with
        | some rest => some (.bool true, rest)
        | none =>
          match stripLit ['f', 'a', 'l', 's', 'e'] (c :: cs) with
          | some rest => some (.bool false, rest)
          | none =>
            match stripLit ['n', 'u', 'l', 'l'] (c :: cs) with
            | some rest => some (.null, rest)
            | none =>
              if c = '-' || c.isDigit then
                (parseNumberLit (c :: cs)).map fun p => (.num (String.mk p.1), p.2)
              else none

def parseMembers : Nat → List Char → List (String × JValue) → Option (JValue × List Char)
  | 0, _, _ => none
  | fuel + 1, s, acc =>
    match skipWs s with
    | [] => none
    | c :: cs =>
      if c = '"' then
        match parseStringBody cs with
        | none => none
        | some (key, rest) =>
          match skipWs rest with
          | ':' :: rest1 =>
            match parseValue fuel rest1 with
            | none => none
            | some (v, rest2) =>
              match skipWs rest2 with
              | ',' :: rest3 => parseMembers fuel rest3 (acc ++ [(String.mk key, v)])
              | d :: rest3 =>
                if d = rbraceChar then some (.obj (acc ++ [(String.mk key, v)]), rest3)
                else none
              | [] => none
          | _ => none
      else none

def parseElems : Nat → List Char → List JValue → Option (JValue × List Char)
  | 0, _, _ => none
  | fuel + 1, s, acc =>
    match parseValue fuel s with
    | none => none
    | some (v, rest) =>
      match skipWs rest with
      | ',' :: rest1 => parseElems fuel rest1 (acc ++ [v])
      | d :: rest1 => if d = ']' then some (.arr (acc ++ [v]), rest1) else none
      | [] => none

end

/-- Parse a whole JSON document (trailing whitespace only), as
`json.Unmarshal` requires.  The fuel bound exceeds the deepest possible
chain of recursive calls on the input. -/
def jparse (s : String) : Option JValue :=
  match parseValue (2 * s.length + 8) s.data with
  | none => none
  | some (v, rest) => if skipWs rest = [] then some v else none

/-! ## API result handling (`handleAPIResult`, api_client.go lines 188-201)

Go source:
```
var zabbixResp *zabbixResponse
err := json.Unmarshal(response, &zabbixResp)
if err != nil {
    return nil, err
}
if zabbixResp.Error != nil {
    return nil, fmt.Errorf("Code %d: '%s' %s", zabbixResp.Error.Code, zabbixResp.Error.Message, zabbixResp.Error.Data)
}
return zabbixResp.Result, nil
```
The `zabbixResponse` struct itself is not among the repository files in
`src/`; its fields are reconstructed from the uses above and the spec. -/

structure ZabbixError where
  code : Int
  message : String
  data : String
deriving DecidableEq, Repr

/-- Modelled from the spec: the `zabbixResponse` envelope struct (its
declaration is missing from `src/`; only its uses in `handleAPIResult`
are present).  The spec says the response envelope carries `result` or an
`error{code,message,data}` object.  `result` is a `json.RawMessage`
(kept as the raw `JValue`, `none` when the field is absent), `error` a
nullable pointer to the error object. -/
structure zabbixResponse where
  result : Option JValue
  error : Option ZabbixError

/-- Last binding of key `k` in a JSON object (later duplicate keys win, as
in `encoding/json`). -/
def lookupLast (fields : List (String × JValue)) (k : String) : Option JValue :=
  (fields.reverse.find? fun p => p.1 == k).map fun p => p.2

/-- `json.Unmarshal` of a JSON value into a Go `int` field: integer number
literals are accepted, `null` leaves the zero value. -/
def decodeInt? : JValue → Option Int
  | .null => some 0
  | .num lit => lit.toInt?
  | _ => none

/-- `json.Unmarshal` of a JSON value into a Go `string` field: strings are
accepted, `null` leaves the zero value. -/
def decodeString? : JValue → Option String
  | .null => some ""
  | .str s => some s
  | _ => none

def decodeZabbixError (fields : List (String × JValue)) : Option ZabbixError := do
  let code ←
    match lookupLast fields "code" with
    | none => some (0 : Int)
    | some v => decodeInt? v
  let message ←
    match lookupLast fields "message" with
    | none => some ""
    | some v => decodeString? v
  let data ←
    match lookupLast fields "data" with
    | none => some ""
    | some v => decodeString? v
  some ⟨code, message, data⟩

/-- `json.Unmarshal` into `*zabbixResponse`: `none` is an unmarshal error,
`some none` the JSON literal `null` (the pointer is set to nil), and
`some (some resp)` a decoded envelope. -/
def decodeZabbixResponse : JValue → Option (Option zabbixResponse)
  | .null => some none
  | .obj fields => do
    let e ←
      match lookupLast fields "error" with
      | none => some (none : Option ZabbixError)
      | some .null => some none
      | some (.obj ef) => (decodeZabbixError ef).map some
      | some _ => none
    some (some ⟨lookupLast fields "result", e⟩)
  | _ => none

/-- Outcome of `handleAPIResult`: an unmarshal failure, an API-level error
(the formatted message), the `result` field, or the nil-pointer
dereference `zabbixResp.Error` performs when the input was JSON `null`. -/
inductive HAResult where
  | parseErr
  | apiErr (msg : String)
  | ok (result : Option JValue)
  | nilDeref

def formatAPIError (e : ZabbixError) : String :=
  "Code " ++ toString e.code ++ ": '" ++ e.message ++ "' " ++ e.data

def handleAPIResult (response : String) : HAResult :=
  match jparse response with
  | none => .parseErr
  | some v =>
    match decodeZabbixResponse v with
    | none => .parseErr
    | some none => .nilDeref
    | some (some resp) =>
      match resp.error with
      | some e => .apiErr (formatAPIError e)
      | none => .ok resp.result

/-- `"{"` and `"}"` as strings, for assembling concrete JSON inputs. -/
def lb : String := String.mk [lbraceChar]
def rb : String := String.mk [rbraceChar]

/-- The input `{"result":"x"}`. -/
def sampleResultOnly : String := lb ++ "\"result\":\"x\"" ++ rb

/-- The input `{"result":"x","error":{"message":"M","data":"D"}}`. -/
def sampleResultError : String :=
  lb ++ "\"result\":\"x\",\"error\":" ++ lb ++ "\"message\":\"M\",\"data\":\"D\"" ++ rb ++ rb

/-- The malformed input `{"result"::"x"}` from the repository's tests. -/
def sampleMalformed : String := lb ++ "\"result\"::\"x\"" ++ rb

/-- C7 (counterexample): the claim universally promises, for any input that
is well-formed JSON without an error object, the `result` field and no
error; but on the well-formed input `null` the code sets the envelope
pointer to nil and then dereferences it (`zabbixResp.Error`), panicking
instead of returning a result, a parse error or a failure. -/
theorem handleAPIResult_null_panics :
    handleAPIResult "null" = HAResult.nilDeref ∧
    (∀ r, HAResult.nilDeref ≠ HAResult.ok r) ∧
    HAResult.nilDeref ≠ HAResult.parseErr ∧
    (∀ m, HAResult.nilDeref ≠ HAResult.apiErr m) := by
  refine ⟨rfl, ?_, ?_, ?_⟩ <;> intros <;> simp

/-- C7 (amended): for every input except the JSON literal `null` (on which
the code panics), `handleAPIResult` returns an unmarshal failure when the
input does not decode as the envelope, the failure
`Code <code>: '<message>' <data>` when the envelope holds an error object,
and the `result` field with no error otherwise; concretely
`{"result":"x"}` gives result `"x"`, adding
`"error":{"message":"M","data":"D"}` gives the failure `Code 0: 'M' D`
and no result, and the malformed `{"result"::"x"}` gives a parse error. -/
theorem handleAPIResult_spec :
    (∀ s, jparse s = none → handleAPIResult s = .parseErr) ∧
    (∀ s v, jparse s = some v → decodeZabbixResponse v = none →
      handleAPIResult s = .parseErr) ∧
    (∀ s v resp e, jparse s = some v → decodeZabbixResponse v = some (some resp) →
      resp.error = some e → handleAPIResult s = .apiErr (formatAPIError e)) ∧
    (∀ s v resp, jparse s = some v → decodeZabbixResponse v = some (some resp) →
      resp.error = none → handleAPIResult s = .ok resp.result) ∧
    handleAPIResult sampleResultOnly = .ok (some (.str "x")) ∧
    handleAPIResult sampleResultError = .apiErr "Code 0: 'M' D" ∧
    handleAPIResult sampleMalformed = .parseErr := by
  refine ⟨?_, ?_, ?_, ?_, rfl, rfl, rfl⟩
  · intro s h; simp [handleAPIResult, h]
  · intro s v h hd; simp [handleAPIResult, h, hd]
  · intro s v resp e h hd he; simp [handleAPIResult, h, hd, he]
  · intro s v resp h hd he; simp [handleAPIResult, h, hd, he]

/-- Closed instantiation of `handleAPIResult_spec`'s conditional parts on
the concrete sample inputs. -/
theorem handleAPIResult_spec_witness :
    handleAPIResult sampleMalformed = .parseErr ∧
    handleAPIResult sampleResultError =
      .apiErr (formatAPIError ⟨0, "M", "D"⟩) ∧
    handleAPIResult sampleResultOnly = .ok (some (.str "x")) := by
  refine ⟨?_, ?_, ?_⟩
  · exact (handleAPIResult_spec).1 sampleMalformed rfl
  · exact (handleAPIResult_spec).2.2.1 sampleResultError
      (.obj [("result", .str "x"),
        ("error", .obj [("message", .str "M"), ("data", .str "D")])])
      ⟨some (.str "x"), some ⟨0, "M", "D"⟩⟩ ⟨0, "M", "D"⟩ rfl rfl rfl
  · exact (handleAPIResult_spec).2.2.2.1 sampleResultOnly (.obj [("result", .str "x")])
      ⟨some (.str "x"), none⟩ rfl rfl rfl

/-! ## Connection test (`TestConnection`, datasource.go lines 358-381)

Go source:
```
result, err := ds.client.RawRequest(ctx, dsInfo, "apiinfo.version", zabbixParams{})
if err != nil {
    ds.logger.Debug("TestConnection", "error", err)
    return BuildErrorResponse(fmt.Errorf("Version check failed: %w", err)), nil
}
var version string
err = json.Unmarshal(result, &version)
if err != nil {
    ds.logger.Error(...)
    return nil, fmt.Errorf("Internal error while parsing response from Zabbix")
}
testResponse := connectionTestResponse{ZabbixVersion: version}
return BuildResponse(testResponse)
```
The `RawRequest` outcome (which includes any authentication failure) is
abstracted as an `Except`. -/

/-- Outcome of `TestConnection`: `soft` is a successful response envelope
with an embedded error string (`BuildErrorResponse(...), nil`), `hard` is
a transport-level failure (`nil, err`), `ok` the version payload. -/
inductive TCResult where
  | soft (err : String)
  | hard (err : String)
  | ok (version : String)
deriving DecidableEq, Repr

/-- `json.Unmarshal(result, &version)` for `version string`: a JSON string
(or `null`, which keeps the zero value) decodes; anything else is an
unmarshal error. -/
def unmarshalVersion (raw : String) : Except Unit String :=
  match jparse raw with
  | some (.str v) => .ok v
  | some .null => .ok ""
  | _ => .error ()

def testConnection (raw : Except String String) : TCResult :=
  match raw with
  | .error e => .soft ("Version check failed: " ++ e)
  | .ok result =>
    match unmarshalVersion result with
    | .error _ => .hard "Internal error while parsing response from Zabbix"
    | .ok v => .ok v

/-- C4 (counterexample): `TestConnection` is claimed never to return a
hard (transport-level) failure on failure to parse the version result,
but when the version-check call succeeds with a payload that does not
parse as a JSON string it returns the hard failure
`Internal error while parsing response from Zabbix` (the repository's own
test `TestZabbixDatasource_TestConnectionBadResponse` asserts exactly
this). -/
theorem testConnection_hard_on_parse_failure :
    testConnection (.ok "invalid json") =
      TCResult.hard "Internal error while parsing response from Zabbix" ∧
    (∀ e, TCResult.hard "Internal error while parsing response from Zabbix" ≠
      TCResult.soft e) ∧
    (∀ v, TCResult.hard "Internal error while parsing response from Zabbix" ≠
      TCResult.ok v) := by
  refine ⟨rfl, ?_, ?_⟩ <;> intros <;> simp

/-- C4 (amended): `TestConnection` returns a successful envelope with an
embedded error string when the version-check `RawRequest` fails for any
reason (including authentication failure), and the version payload when
the result parses; but a result that fails to unmarshal as a JSON string
yields a hard transport-level failure, not an embedded error. -/
theorem testConnection_spec :
    (∀ e, testConnection (.error e) = .soft ("Version check failed: " ++ e)) ∧
    (∀ r v, unmarshalVersion r = .ok v → testConnection (.ok r) = .ok v) ∧
    (∀ r, unmarshalVersion r = .error () →
      testConnection (.ok r) = .hard "Internal error while parsing response from Zabbix") ∧
    testConnection (.ok "\"4.0.0\"") = .ok "4.0.0" := by
  refine ⟨fun e => rfl, ?_, ?_, rfl⟩
  · intro r v h; simp [testConnection, h]
  · intro r h; simp [testConnection, h]

/-- Closed instantiation of `testConnection_spec` at the repository's own
mock inputs. -/
theorem testConnection_spec_witness :
    testConnection (.error "Test connection error") =
      .soft "Version check failed: Test connection error" ∧
    testConnection (.ok "\"4.0.0\"") = .ok "4.0.0" ∧
    testConnection (.ok "invalid json") =
      .hard "Internal error while parsing response from Zabbix" := by
  refine ⟨(testConnection_spec).1 "Test connection error", ?_, ?_⟩
  · exact (testConnection_spec).2.1 "\"4.0.0\"" "4.0.0" rfl
  · exact (testConnection_spec).2.2.1 "invalid json" rfl

/-! ## Trend statistic and consolidateBy resolution
(`getTrendValueType` datasource.go lines 579-600, `getConsolidateBy` lines
602-614, consumed by `queryNumericDataForItems` lines 553-577)

Go source (getTrendValueType):
```
var trendFunctions []string
var trendValueFunc string
// TODO: loop over actual returned categories
for _, j := range new(categories).Trends {
    trendFunctions = append(trendFunctions, j["name"].(string))
}
for _, k := range jsonQueries[0].Get("functions").MustArray() {
    for _, j := range trendFunctions {
        if j == k.(map[string]interface{})["def"].(map[string]interface{})["name"] {
            trendValueFunc = j
        }
    }
}
if trendValueFunc == "" {
    trendValueFunc = "avg"
}
return trendValueFunc
```
`new(categories)` is the zero value of the `categories` struct, whose
`Trends` field is a nil slice, so `trendFunctions` is always empty.
A query's declared function call is its `def.name` and `def.params`. -/

structure FuncDef where
  name : String
  params : List String
deriving DecidableEq, Repr

/-- `new(categories).Trends`: the zero value, an empty list. -/
def categoriesTrends : List String := []

def getTrendValueType (functions : List FuncDef) : String :=
  let trendFunctions := categoriesTrends
  let trendValueFunc := functions.foldl
    (fun acc f => if trendFunctions.contains f.name then f.name else acc) ""
  if trendValueFunc = "" then "avg" else trendValueFunc

/-- datasource.go lines 602-614: the last `consolidateBy` declaration with a
non-empty parameter list wins; one with no parameters leaves the previous
value. -/
def getConsolidateBy (functions : List FuncDef) : String :=
  functions.foldl
    (fun acc f =>
      if f.name = "consolidateBy" then
        match f.params with
        | p :: _ => p
        | [] => acc
      else acc) ""

/-- datasource.go lines 554-559: the `consolidateBy` value
`queryNumericDataForItems` computes (and then only logs). -/
def queryNumericConsolidateBy (functions : List FuncDef) : String :=
  let valueType := getTrendValueType functions
  let consolidateBy := getConsolidateBy functions
  if consolidateBy = "" then valueType else consolidateBy

/-- datasource.go line 567: the statistic actually passed to `convertTrend`
is `valueType` (the `getTrendValueType` result); the `consolidateBy` local
is not consulted. -/
def queryNumericTrendStat (functions : List FuncDef) : String :=
  getTrendValueType functions

/-- C5: the claim says a declared `min`/`max` function selects that trend
statistic and a `consolidateBy` parameter overrides the choice; but the
code's recognized trend-function list (`new(categories).Trends`) is the
empty zero value, so `getTrendValueType` returns "avg" for every query
(shown for the declared-`min` and declared-`max` inputs and in general),
and although `getConsolidateBy` extracts the declared parameter, the
statistic handed to `convertTrend` is still "avg". -/
theorem getTrendValueType_always_avg :
    getTrendValueType [⟨"min", []⟩] = "avg" ∧
    getTrendValueType [⟨"max", []⟩] = "avg" ∧
    (∀ functions, getTrendValueType functions = "avg") ∧
    getConsolidateBy [⟨"consolidateBy", ["max"]⟩] = "max" ∧
    queryNumericConsolidateBy [⟨"consolidateBy", ["max"]⟩] = "max" ∧
    queryNumericTrendStat [⟨"consolidateBy", ["max"]⟩] = "avg" ∧
    queryNumericTrendStat [⟨"min", []⟩] = "avg" := by
  have hfold : ∀ (fs : List FuncDef) (acc : String),
      List.foldl (fun (acc : String) (_ : FuncDef) => acc) acc fs = acc := by
    intro fs
    induction fs with
    | nil => intro acc; rfl
    | cons f fs ih => intro acc; exact ih acc
  refine ⟨rfl, rfl, ?_, rfl, rfl, rfl, rfl⟩
  intro functions
  simp [getTrendValueType, categoriesTrends, hfold]

/-! ## Series construction (`convertHistory` datasource.go lines 626-648,
`convertTrend` lines 650-683)

Go source (convertHistory):
```
seriesMap := map[string]*datasource.TimeSeries{}
for _, item := range items {
    seriesMap[item.ID] = &datasource.TimeSeries{
        Name:   fmt.Sprintf("%s %s", item.Hosts[0].Name, item.Name),
        Points: []*datasource.Point{},
    }
}
for _, point := range history {
    seriesMap[point.ItemID].Points = append(seriesMap[point.ItemID].Points, &datasource.Point{
        Timestamp: point.Clock*1000 + int64(math.Round(float64(point.NS)/1000000)),
        Value:     point.Value,
    })
}
seriesList := []*datasource.TimeSeries{}
for _, series := range seriesMap {
    seriesList = append(seriesList, series)
}
return seriesList
```
The `zabbix.Item`/`zabbix.HistoryPoint`/`zabbix.TrendPoint` containers come
from the upstream `pkg/zabbix` module (not in this repository); their fields
are reconstructed from the uses here and in the tests.  `map[string]` is
embedded as an association list in insertion order (Go's iteration order is
unspecified; none of the claims depend on the ordering of the final list
across items).  `item.Hosts[0]` on an empty slice and
`seriesMap[point.ItemID].Points` on a missing key panic; panics are
`Option.none`.  `Value` is a Go `float64` passed through untouched; an
`Int` stands in for it. -/

structure ItemHost where
  id : String
  name : String
deriving DecidableEq, Repr

structure Item where
  id : String
  name : String
  valueType : Int
  hostid : String
  hosts : List ItemHost
  status : String
deriving DecidableEq, Repr

structure HistoryPoint where
  itemid : String
  clock : Int
  ns : Int
  value : Int
deriving DecidableEq, Repr

structure TrendPoint where
  itemid : String
  clock : Int
  valueMin : Int
  valueAvg : Int
  valueMax : Int
deriving DecidableEq, Repr

structure Point where
  timestamp : Int
  value : Int
deriving DecidableEq, Repr

structure TimeSeries where
  name : String
  points : List Point
deriving DecidableEq, Repr

/-- `point.Clock*1000 + int64(math.Round(float64(point.NS)/1000000))`; for
the sub-second range `0 ≤ ns < 10^9` that `NS` carries, `math.Round`
(half away from zero) agrees with this integer form. -/
def histPoint (p : HistoryPoint) : Point :=
  ⟨p.clock * 1000 + (p.ns + 500000).tdiv 1000000, p.value⟩

/-- First lookup in an association list (the embedding of a Go map whose
keys are kept in insertion order). -/
def alookup (m : List (String × TimeSeries)) (k : String) : Option TimeSeries :=
  (m.find? fun p => p.1 == k).map fun p => p.2

/-- Go map assignment: overwrite the present key or append a new binding. -/
def ainsert (m : List (String × TimeSeries)) (k : String) (v : TimeSeries) :
    List (String × TimeSeries) :=
  if (m.find? fun p => p.1 == k).isSome then
    m.map fun p => if p.1 == k then (p.1, v) else p
  else m ++ [(k, v)]

/-- In-place update of the series a key points at (the Go code mutates the
`*TimeSeries` behind the map entry). -/
def aupdate (m : List (String × TimeSeries)) (k : String) (v : TimeSeries) :
    List (String × TimeSeries) :=
  m.map fun p => if p.1 == k then (p.1, v) else p

/-- One step of the first loop of both conversions: register an empty
series named `fmt.Sprintf("%s %s", item.Hosts[0].Name, item.Name)` under
the item's id; `none` models the `item.Hosts[0]` panic on an empty host
list. -/
def initStep (acc : List (String × TimeSeries)) (it : Item) :
    Option (List (String × TimeSeries)) :=
  match it.hosts with
  | [] => none
  | h :: _ => some (ainsert acc it.id ⟨h.name ++ " " ++ it.name, []⟩)

/-- The first loop of both conversions. -/
def initSeriesMap (items : List Item) : Option (List (String × TimeSeries)) :=
  items.foldlM initStep ([] : List (String × TimeSeries))

def convertHistory (history : List HistoryPoint) (items : List Item) :
    Option (List TimeSeries) := do
  let init ← initSeriesMap items
  let final ← history.foldlM
    (fun acc p =>
      match alookup acc p.itemid with
      | none => none
      | some s => some (aupdate acc p.itemid ⟨s.name, s.points ++ [histPoint p]⟩))
    init
  some (final.map fun p => p.2)

/-- The `switch trendValueType` of `convertTrend`: an unrecognized
statistic leaves `trendValueFunc` nil, and calling it panics. -/
def trendValueFunc? (trendValueType : String) : Option (TrendPoint → Int) :=
  if trendValueType = "min" then some fun tp => tp.valueMin
  else if trendValueType = "avg" then some fun tp => tp.valueAvg
  else if trendValueType = "max" then some fun tp => tp.valueMax
  else none

def convertTrend (history : List TrendPoint) (items : List Item)
    (trendValueType : String) : Option (List TimeSeries) := do
  let init ← initSeriesMap items
  let final ← history.foldlM
    (fun acc p =>
      match trendValueFunc? trendValueType with
      | none => none
      | some f =>
        match alookup acc p.itemid with
        | none => none
        | some s => some (aupdate acc p.itemid ⟨s.name, s.points ++ [⟨p.clock * 1000, f p⟩]⟩))
    init
  some (final.map fun p => p.2)

/-- The name `fmt.Sprintf("%s %s", item.Hosts[0].Name, item.Name)` gives a
series (stated with `headD`; the conversions only reach it when the host
list is non-empty). -/
def seriesName (it : Item) : String :=
  (it.hosts.headD ⟨"", ""⟩).name ++ " " ++ it.name

/-! Characterization of the two conversion phases. -/

theorem aupdate_keys (m : List (String × TimeSeries)) (k : String) (v : TimeSeries) :
    (aupdate m k v).map (fun p => p.1) = m.map fun p => p.1 := by
  simp only [aupdate, List.map_map]
  apply List.map_congr_left
  intro p _
  by_cases h : (p.1 == k) = true
  · rw [Function.comp_apply, if_pos h]
  · rw [Function.comp_apply, if_neg h]

theorem alookup_of_mem (m : List (String × TimeSeries)) (kv : String × TimeSeries)
    (hnd : (m.map fun p => p.1).Nodup) (hm : kv ∈ m) : alookup m kv.1 = some kv.2 := by
  induction m with
  | nil => cases hm
  | cons a as ih =>
    rcases List.mem_cons.mp hm with h | h
    · subst h; simp [alookup]
    · have hne : a.1 ≠ kv.1 := by
        intro he
        have h1 : kv.1 ∈ as.map fun p => p.1 := List.mem_map_of_mem _ h
        rw [← he] at h1
        exact (List.nodup_cons.mp hnd).1 h1
      have ihh := ih (List.nodup_cons.mp hnd).2 h
      have hbe : (a.1 == kv.1) = false := by
        cases hb : a.1 == kv.1
        · rfl
        · exact absurd (eq_of_beq hb) hne
      simp only [alookup, List.find?_cons, hbe, cond_false] at ihh ⊢
      exact ihh

/-- The second loop of `convertHistory`/`convertTrend`, abstracted over the
point type: look the key up (panic when absent) and append the converted
point to the series behind it. -/
def foldPoints {α : Type} (key : α → String) (conv : α → Point)
    (ps : List α) (acc : List (String × TimeSeries)) :
    Option (List (String × TimeSeries)) :=
  ps.foldlM
    (fun acc p =>
      match alookup acc (key p) with
      | none => none
      | some s => some (aupdate acc (key p) ⟨s.name, s.points ++ [conv p]⟩))
    acc

theorem foldPoints_eq {α : Type} (key : α → String) (conv : α → Point) :
    ∀ (ps : List α) (acc : List (String × TimeSeries)),
      (acc.map fun p => p.1).Nodup →
      (∀ p ∈ ps, key p ∈ acc.map fun p => p.1) →
      foldPoints key conv ps acc =
        some (acc.map fun kv =>
          (kv.1, ⟨kv.2.name,
            kv.2.points ++ ((ps.filter fun p => key p == kv.1).map conv)⟩)) := by
  intro ps
  induction ps with
  | nil =>
    intro acc _ _
    have hmapid :
        (acc.map fun kv =>
          ((kv.1 : String),
            (⟨kv.2.name, kv.2.points ++ (([].filter fun p => key p == kv.1).map conv)⟩ :
              TimeSeries))) = acc := by
      have h1 := List.map_congr_left
        (f := fun kv : String × TimeSeries =>
          ((kv.1 : String),
            (⟨kv.2.name, kv.2.points ++ (([].filter fun p => key p == kv.1).map conv)⟩ :
              TimeSeries)))
        (g := id) (l := acc) (fun kv _ => by simp)
      rw [h1, List.map_id]
    simp only [foldPoints, List.foldlM_nil]
    rw [hmapid]
    rfl
  | cons p ps ih =>
    intro acc hnd hmem
    obtain ⟨kv0, hkv0, hkey⟩ := List.mem_map.mp (hmem p (List.mem_cons_self p ps))
    have hlook : alookup acc (key p) = some kv0.2 := by
      rw [← hkey]; exact alookup_of_mem acc kv0 hnd hkv0
    have hkeys : ((aupdate acc (key p) ⟨kv0.2.name, kv0.2.points ++ [conv p]⟩).map
        fun q => q.1) = acc.map fun q => q.1 := aupdate_keys acc (key p) _
    have hstep : foldPoints key conv (p :: ps) acc =
        foldPoints key conv ps (aupdate acc (key p) ⟨kv0.2.name, kv0.2.points ++ [conv p]⟩) := by
      simp [foldPoints, hlook]
    rw [hstep, ih _ (hkeys ▸ hnd) (fun q hq => hkeys ▸ hmem q (List.mem_cons_of_mem p hq))]
    congr 1
    simp only [aupdate, List.map_map]
    apply List.map_congr_left
    intro kv hkv
    by_cases hk : kv.1 = key p
    · have hb : (kv.1 == key p) = true := beq_iff_eq.mpr hk
      have hb' : (key p == kv.1) = true := beq_iff_eq.mpr hk.symm
      have hkv2 : kv.2 = kv0.2 := by
        have h1 : alookup acc kv.1 = some kv.2 := alookup_of_mem acc kv hnd hkv
        rw [hk, hlook] at h1
        exact (Option.some.inj h1).symm
      simp only [Function.comp_apply, if_pos hb]
      simp [List.filter_cons, hb', hkv2]
    · have hb : (kv.1 == key p) = false := beq_eq_false_iff_ne.mpr hk
      have hb' : (key p == kv.1) = false := beq_eq_false_iff_ne.mpr fun h => hk h.symm
      simp only [Function.comp_apply, if_neg (by simp [hb] : ¬((kv.1 == key p) = true))]
      simp [List.filter_cons, hb']

theorem initSeriesMap_go (items : List Item) :
    ∀ (acc : List (String × TimeSeries)),
      (∀ it ∈ items, it.hosts ≠ []) →
      (∀ it ∈ items, it.id ∉ acc.map fun p => p.1) →
      (items.map fun it => it.id).Nodup →
      items.foldlM initStep acc =
        some (acc ++ items.map fun it => (it.id, ⟨seriesName it, []⟩)) := by
  induction items with
  | nil => intro acc _ _ _; simp
  | cons it rest ih =>
    intro acc hh hacc hnd
    obtain ⟨h0, hs, hhosts⟩ : ∃ h0 hs, it.hosts = h0 :: hs := by
      cases hht : it.hosts with
      | nil => exact absurd hht (hh it (List.mem_cons_self it rest))
      | cons h0 hs => exact ⟨h0, hs, rfl⟩
    have hfind : (acc.find? fun p => p.1 == it.id) = none := by
      rw [List.find?_eq_none]
      intro p hp hbe
      have h1 : p.1 ∈ acc.map fun q => q.1 := List.mem_map_of_mem _ hp
      rw [eq_of_beq hbe] at h1
      exact hacc it (List.mem_cons_self it rest) h1
    have hins : ainsert acc it.id ⟨h0.name ++ " " ++ it.name, []⟩ =
        acc ++ [(it.id, ⟨h0.name ++ " " ++ it.name, []⟩)] := by
      simp [ainsert, hfind]
    have hname : seriesName it = h0.name ++ " " ++ it.name := by
      simp [seriesName, hhosts]
    have hrest : ∀ x ∈ rest,
        x.id ∉ (acc ++ [(it.id, (⟨h0.name ++ " " ++ it.name, []⟩ : TimeSeries))]).map
          fun p => p.1 := by
      intro x hx hmem
      rw [List.map_append, List.mem_append] at hmem
      rcases hmem with hmem | hmem
      · exact hacc x (List.mem_cons_of_mem it hx) hmem
      · simp only [List.map_cons, List.map_nil, List.mem_singleton] at hmem
        have h1 : x.id ∈ rest.map fun i => i.id := List.mem_map_of_mem _ hx
        rw [hmem] at h1
        exact (List.nodup_cons.mp hnd).1 h1
    have hstep : (it :: rest).foldlM initStep acc =
        rest.foldlM initStep
          (acc ++ [(it.id, (⟨h0.name ++ " " ++ it.name, []⟩ : TimeSeries))]) := by
      simp [List.foldlM_cons, initStep, hhosts, hins]
    have hrec := ih (acc ++ [(it.id, (⟨h0.name ++ " " ++ it.name, []⟩ : TimeSeries))])
      (fun x hx => hh x (List.mem_cons_of_mem it hx)) hrest (List.nodup_cons.mp hnd).2
    rw [hstep, hrec]
    simp [hname]

/-- Shared characterization: under the precondition that item ids are
distinct, every item has a host, and every point's item id belongs to the
item set, `convertHistory` yields exactly one series per item, named
`"<host name> <item name>"`, whose points are the item's history points in
order, converted by `histPoint`. -/
theorem convertHistory_eq (history : List HistoryPoint) (items : List Item)
    (hnd : (items.map fun it => it.id).Nodup)
    (hh : ∀ it ∈ items, it.hosts ≠ [])
    (hmem : ∀ p ∈ history, p.itemid ∈ items.map fun it => it.id) :
    convertHistory history items =
      some (items.map fun it =>
        ⟨seriesName it, (history.filter fun p => p.itemid == it.id).map histPoint⟩) := by
  have hinit : initSeriesMap items =
      some (items.map fun it => (it.id, ⟨seriesName it, []⟩)) := by
    have := initSeriesMap_go items [] hh (by intro it _ h; cases h) hnd
    simpa [initSeriesMap] using this
  have hkeys : ((items.map fun it => ((it.id : String), (⟨seriesName it, []⟩ : TimeSeries))).map
      fun p => p.1) = items.map fun it => it.id := by
    rw [List.map_map]; rfl
  have hfold := foldPoints_eq (fun p : HistoryPoint => p.itemid) histPoint history
    (items.map fun it => (it.id, ⟨seriesName it, []⟩))
    (by rw [hkeys]; exact hnd) (by rw [hkeys]; exact hmem)
  have hfold' : (history.foldlM
      (fun acc p =>
        match alookup acc p.itemid with
        | none => none
        | some s => some (aupdate acc p.itemid ⟨s.name, s.points ++ [histPoint p]⟩))
      (items.map fun it => (it.id, ⟨seriesName it, []⟩))) =
      some ((items.map fun it => ((it.id : String), (⟨seriesName it, []⟩ : TimeSeries))).map
        fun kv => (kv.1, ⟨kv.2.name,
          kv.2.points ++ ((history.filter fun p => p.itemid == kv.1).map histPoint)⟩)) :=
    hfold
  simp only [convertHistory, hinit, Option.bind_eq_bind, Option.some_bind, hfold',
    Option.some_bind]
  congr 1
  rw [List.map_map, List.map_map]
  apply List.map_congr_left
  intro it _
  rfl

/-- Ascending arrival order of history points: by clock, ties by
sub-second part. -/
def clockNsLe (p q : HistoryPoint) : Prop :=
  p.clock < q.clock ∨ (p.clock = q.clock ∧ p.ns ≤ q.ns)

instance : DecidableRel clockNsLe := fun p q => by
  unfold clockNsLe; infer_instance

/-- Ascending converted timestamps. -/
def tsLe (a b : Point) : Prop := a.timestamp ≤ b.timestamp

instance : DecidableRel tsLe := fun a b => by
  unfold tsLe; infer_instance

theorem histPoint_mono (p q : HistoryPoint) (hp0 : 0 ≤ p.ns) (hp1 : p.ns < 1000000000)
    (hq0 : 0 ≤ q.ns) (hq1 : q.ns < 1000000000) (h : clockNsLe p q) :
    tsLe (histPoint p) (histPoint q) := by
  have e1 : (p.ns + 500000).tdiv 1000000 = (p.ns + 500000) / 1000000 :=
    Int.tdiv_eq_ediv (by omega) (by norm_num)
  have e2 : (q.ns + 500000).tdiv 1000000 = (q.ns + 500000) / 1000000 :=
    Int.tdiv_eq_ediv (by omega) (by norm_num)
  have d1 := Int.ediv_add_emod (p.ns + 500000) 1000000
  have d2 := Int.ediv_add_emod (q.ns + 500000) 1000000
  have m1a : 0 ≤ (p.ns + 500000) % 1000000 := Int.emod_nonneg _ (by norm_num)
  have m1b : (p.ns + 500000) % 1000000 < 1000000 := Int.emod_lt_of_pos _ (by norm_num)
  have m2a : 0 ≤ (q.ns + 500000) % 1000000 := Int.emod_nonneg _ (by norm_num)
  have m2b : (q.ns + 500000) % 1000000 < 1000000 := Int.emod_lt_of_pos _ (by norm_num)
  simp only [tsLe, histPoint, e1, e2]
  rcases h with h | ⟨h1, h2⟩ <;> omega

/-- Shared characterization of `convertTrend` under the same precondition,
for a recognized trend statistic (`trendValueFunc? stat = some f`). -/
theorem convertTrend_eq (trend : List TrendPoint) (items : List Item) (stat : String)
    (f : TrendPoint → Int) (hstat : trendValueFunc? stat = some f)
    (hnd : (items.map fun it => it.id).Nodup)
    (hh : ∀ it ∈ items, it.hosts ≠ [])
    (hmem : ∀ p ∈ trend, p.itemid ∈ items.map fun it => it.id) :
    convertTrend trend items stat =
      some (items.map fun it =>
        ⟨seriesName it,
          (trend.filter fun p => p.itemid == it.id).map fun p => ⟨p.clock * 1000, f p⟩⟩) := by
  have hinit : initSeriesMap items =
      some (items.map fun it => (it.id, ⟨seriesName it, []⟩)) := by
    have := initSeriesMap_go items [] hh (by intro it _ h; cases h) hnd
    simpa [initSeriesMap] using this
  have hkeys : ((items.map fun it => ((it.id : String), (⟨seriesName it, []⟩ : TimeSeries))).map
      fun p => p.1) = items.map fun it => it.id := by
    rw [List.map_map]; rfl
  have hfold := foldPoints_eq (fun p : TrendPoint => p.itemid)
    (fun p : TrendPoint => ⟨p.clock * 1000, f p⟩) trend
    (items.map fun it => (it.id, ⟨seriesName it, []⟩))
    (by rw [hkeys]; exact hnd) (by rw [hkeys]; exact hmem)
  have hfold' : (trend.foldlM
      (fun (acc : List (String × TimeSeries)) (p : TrendPoint) =>
        match alookup acc p.itemid with
        | none => none
        | some s =>
          some (aupdate acc p.itemid
            ⟨s.name, s.points ++ [(⟨p.clock * 1000, f p⟩ : Point)]⟩))
      (items.map fun it => (it.id, ⟨seriesName it, []⟩))) =
      some ((items.map fun it => ((it.id : String), (⟨seriesName it, []⟩ : TimeSeries))).map
        fun kv => (kv.1, ⟨kv.2.name,
          kv.2.points ++ ((trend.filter fun p => p.itemid == kv.1).map
            fun p => (⟨p.clock * 1000, f p⟩ : Point))⟩)) := hfold
  simp only [convertTrend, hinit, hstat, Option.bind_eq_bind, Option.some_bind, hfold',
    Option.some_bind]
  congr 1
  rw [List.map_map, List.map_map]
  apply List.map_congr_left
  intro it _
  rfl

/-- C6: when item ids are distinct, every item carries its host, and every
fetched point belongs to a resolved item, `convertHistory` produces
exactly one series per resolved item — named `"<host name> <item name>"` —
holding exactly that item's points in arrival order, each timestamp being
`clock` in milliseconds plus the sub-second `ns` part rounded to
milliseconds; and when the history arrives in ascending (clock, ns) order,
every series' points are in ascending timestamp order. -/
theorem convertHistory_series_spec (history : List HistoryPoint) (items : List Item)
    (hnd : (items.map fun it => it.id).Nodup)
    (hh : ∀ it ∈ items, it.hosts ≠ [])
    (hmem : ∀ p ∈ history, p.itemid ∈ items.map fun it => it.id) :
    convertHistory history items =
      some (items.map fun it =>
        ⟨seriesName it, (history.filter fun p => p.itemid == it.id).map histPoint⟩) ∧
    (∀ l, convertHistory history items = some l → l.length = items.length) ∧
    (history.Pairwise clockNsLe → (∀ p ∈ history, 0 ≤ p.ns ∧ p.ns < 1000000000) →
      ∀ l, convertHistory history items = some l →
        ∀ s ∈ l, s.points.Pairwise tsLe) := by
  have hchar := convertHistory_eq history items hnd hh hmem
  refine ⟨hchar, ?_, ?_⟩
  · intro l hl
    rw [hchar] at hl
    rw [← Option.some.inj hl, List.length_map]
  · intro hsort hns l hl s hs
    rw [hchar] at hl
    rw [← Option.some.inj hl] at hs
    obtain ⟨it, _, hsit⟩ := List.mem_map.mp hs
    rw [← hsit]
    simp only
    rw [List.pairwise_map]
    have hfilt : (history.filter fun p => p.itemid == it.id).Pairwise clockNsLe :=
      hsort.sublist (List.filter_sublist history)
    refine hfilt.imp_of_mem ?_
    intro a b ha hb hab
    have hamem := List.mem_of_mem_filter ha
    have hbmem := List.mem_of_mem_filter hb
    exact histPoint_mono a b (hns a hamem).1 (hns a hamem).2 (hns b hbmem).1
      (hns b hbmem).2 hab

/-- Closed instantiation of `convertHistory_series_spec`: two items with
three ascending history points each give exactly two named series with
three ascending points each. -/
theorem convertHistory_series_spec_witness :
    convertHistory
        [⟨"1", 10, 0, 1⟩, ⟨"2", 10, 100, 4⟩, ⟨"1", 20, 500000, 2⟩,
         ⟨"2", 20, 600000, 5⟩, ⟨"1", 30, 999999999, 3⟩, ⟨"2", 30, 999999999, 6⟩]
        [⟨"1", "item1", 0, "h1", [⟨"h1", "HostA"⟩], "0"⟩,
         ⟨"2", "item2", 0, "h2", [⟨"h2", "HostB"⟩], "0"⟩] =
      some [⟨"HostA item1", [⟨10000, 1⟩, ⟨20001, 2⟩, ⟨31000, 3⟩]⟩,
            ⟨"HostB item2", [⟨10000, 4⟩, ⟨20001, 5⟩, ⟨31000, 6⟩]⟩] ∧
    (∀ l, convertHistory
        [⟨"1", 10, 0, 1⟩, ⟨"2", 10, 100, 4⟩, ⟨"1", 20, 500000, 2⟩,
         ⟨"2", 20, 600000, 5⟩, ⟨"1", 30, 999999999, 3⟩, ⟨"2", 30, 999999999, 6⟩]
        [⟨"1", "item1", 0, "h1", [⟨"h1", "HostA"⟩], "0"⟩,
         ⟨"2", "item2", 0, "h2", [⟨"h2", "HostB"⟩], "0"⟩] = some l →
      ∀ s ∈ l, s.points.Pairwise tsLe) := by
  have h := convertHistory_series_spec
    [⟨"1", 10, 0, 1⟩, ⟨"2", 10, 100, 4⟩, ⟨"1", 20, 500000, 2⟩,
     ⟨"2", 20, 600000, 5⟩, ⟨"1", 30, 999999999, 3⟩, ⟨"2", 30, 999999999, 6⟩]
    [⟨"1", "item1", 0, "h1", [⟨"h1", "HostA"⟩], "0"⟩,
     ⟨"2", "item2", 0, "h2", [⟨"h2", "HostB"⟩], "0"⟩]
    (by decide) (by decide) (by decide)
  refine ⟨by rw [h.1]; rfl, h.2.2 (by decide) (by decide)⟩

/-- C10: `convertHistory` and `convertTrend` are only safe under the
precondition that every point's item id appears among the resolved items
and every resolved item has a non-empty `Hosts` list.  A point with an
unknown item id makes the second loop dereference the nil series entry,
and an item with no hosts makes the first loop index `Hosts[0]` out of
bounds — both panic (here: `none`) instead of yielding a series list.
Under the precondition (with a recognized trend statistic for
`convertTrend`) a series list is always produced. -/
theorem convert_panics_outside_precondition :
    convertHistory [⟨"p1", 10, 0, 5⟩]
      [⟨"i1", "item", 0, "h1", [⟨"h1", "HostA"⟩], "0"⟩] = none ∧
    convertHistory [] [⟨"i1", "item", 0, "h1", [], "0"⟩] = none ∧
    convertTrend [⟨"p1", 10, 1, 2, 3⟩]
      [⟨"i1", "item", 0, "h1", [⟨"h1", "HostA"⟩], "0"⟩] "avg" = none ∧
    convertTrend [] [⟨"i1", "item", 0, "h1", [], "0"⟩] "avg" = none ∧
    (∀ history items, (items.map fun it => it.id).Nodup →
      (∀ it ∈ items, it.hosts ≠ []) →
      (∀ p ∈ history, p.itemid ∈ items.map fun it => it.id) →
      (convertHistory history items).isSome) ∧
    (∀ trend items stat f, trendValueFunc? stat = some f →
      (items.map fun it => it.id).Nodup →
      (∀ it ∈ items, it.hosts ≠ []) →
      (∀ p ∈ trend, p.itemid ∈ items.map fun it => it.id) →
      (convertTrend trend items stat).isSome) := by
  refine ⟨rfl, rfl, rfl, rfl, ?_, ?_⟩
  · intro history items hnd hh hmem
    rw [convertHistory_eq history items hnd hh hmem]
    rfl
  · intro trend items stat f hstat hnd hh hmem
    rw [convertTrend_eq trend items stat f hstat hnd hh hmem]
    rfl

/-- Closed instantiation of `convert_panics_outside_precondition`'s
conditional parts at concrete valid inputs. -/
theorem convert_panics_outside_precondition_witness :
    (convertHistory [⟨"i1", 10, 0, 5⟩]
      [⟨"i1", "item", 0, "h1", [⟨"h1", "HostA"⟩], "0"⟩]).isSome ∧
    (convertTrend [⟨"i1", 10, 1, 2, 3⟩]
      [⟨"i1", "item", 0, "h1", [⟨"h1", "HostA"⟩], "0"⟩] "avg").isSome := by
  refine ⟨?_, ?_⟩
  · exact convert_panics_outside_precondition.2.2.2.2.1
      [⟨"i1", 10, 0, 5⟩] [⟨"i1", "item", 0, "h1", [⟨"h1", "HostA"⟩], "0"⟩]
      (by decide) (by decide) (by decide)
  · exact convert_panics_outside_precondition.2.2.2.2.2
      [⟨"i1", 10, 1, 2, 3⟩] [⟨"i1", "item", 0, "h1", [⟨"h1", "HostA"⟩], "0"⟩]
      "avg" (fun tp => tp.valueAvg) rfl (by decide) (by decide) (by decide)

/-! ## History and trend fetches (`GetHistory` api_client.go lines
313-353, `GetTrend` lines 356-384)

Go source (GetHistory):
```
totalHistory := zabbix.History{}
groupedItems := map[int]zabbix.Items{}
for _, item := range items {
    groupedItems[item.ValueType] = append(groupedItems[item.ValueType], item)
}
for valueType, items := range groupedItems {
    var itemids []string
    for _, item := range items {
        itemids = append(itemids, item.ID)
    }
    params := zabbixParams{..., ItemIDs: itemids, ..., History: &valueType}
    result, err := ds.RawRequest(ctx, ..., "history.get", params)
    if err != nil { return nil, err }
    err = json.Unmarshal(result, &history)
    ...
    totalHistory = append(totalHistory, history...)
}
return totalHistory, nil
```
The remote `history.get`/`trend.get` is an oracle from the call's
parameters to its decoded result.  The Go map is embedded with keys in
first-appearance order (Go's iteration order is unspecified; the claim
only demands one call per distinct value type). -/

/-- The parameters of one issued `history.get` call. -/
structure HistoryCall where
  valueType : Int
  itemids : List String
deriving DecidableEq, Repr

/-- The grouping loop `groupedItems[item.ValueType] = append(...)`. -/
def groupItemsByValueType (items : List Item) : List (Int × List Item) :=
  items.foldl
    (fun acc it =>
      if (acc.find? fun p => p.1 == it.valueType).isSome then
        acc.map fun p => if p.1 == it.valueType then (p.1, p.2 ++ [it]) else p
      else acc ++ [(it.valueType, [it])])
    []

/-- The per-group call loop of `GetHistory`, also recording the calls
issued. -/
def getHistoryLoop (call : Int → List String → Except String (List HistoryPoint)) :
    List (Int × List Item) → List HistoryPoint → List HistoryCall →
      Except String (List HistoryPoint) × List HistoryCall
  | [], acc, calls => (.ok acc, calls)
  | (vt, its) :: rest, acc, calls =>
    match call vt (its.map fun it => it.id) with
    | .error e => (.error e, calls ++ [⟨vt, its.map fun it => it.id⟩])
    | .ok pts => getHistoryLoop call rest (acc ++ pts) (calls ++ [⟨vt, its.map fun it => it.id⟩])

def getHistory (call : Int → List String → Except String (List HistoryPoint))
    (items : List Item) : Except String (List HistoryPoint) × List HistoryCall :=
  getHistoryLoop call (groupItemsByValueType items) [] []

/-- `GetTrend`: one `trend.get` call carrying every item id. -/
def getTrend (call : List String → Except String (List TrendPoint)) (items : List Item) :
    Except String (List TrendPoint) × List (List String) :=
  (call (items.map fun it => it.id), [items.map fun it => it.id])

/-- The distinct value types of an item list, in first-appearance order. -/
def vtOrder (items : List Item) : List Int :=
  items.foldl (fun acc it => if it.valueType ∈ acc then acc else acc ++ [it.valueType]) []

/-- The partition of an item list at one value type. -/
def itemsOfType (items : List Item) (vt : Int) : List Item :=
  items.filter fun it => it.valueType == vt

theorem vtOrder_go_mem (items : List Item) :
    ∀ (acc : List Int) (v : Int),
      (v ∈ items.foldl
        (fun acc it => if it.valueType ∈ acc then acc else acc ++ [it.valueType]) acc) ↔
        v ∈ acc ∨ v ∈ items.map fun it => it.valueType := by
  induction items with
  | nil => intro acc v; simp
  | cons it rest ih =>
    intro acc v
    simp only [List.foldl_cons, List.map_cons, List.mem_cons]
    by_cases h : it.valueType ∈ acc
    · rw [if_pos h, ih]
      constructor
      · rintro (hv | hv)
        · exact Or.inl hv
        · exact Or.inr (Or.inr hv)
      · rintro (hv | hv | hv)
        · exact Or.inl hv
        · exact Or.inl (hv ▸ h)
        · exact Or.inr hv
    · rw [if_neg h, ih]
      simp [List.mem_append, or_assoc]

theorem vtOrder_mem (items : List Item) (v : Int) :
    v ∈ vtOrder items ↔ v ∈ items.map fun it => it.valueType := by
  have := vtOrder_go_mem items [] v
  simpa [vtOrder] using this

theorem vtOrder_go_nodup (items : List Item) :
    ∀ (acc : List Int), acc.Nodup →
      (items.foldl
        (fun acc it => if it.valueType ∈ acc then acc else acc ++ [it.valueType]) acc).Nodup := by
  induction items with
  | nil => intro acc h; simpa using h
  | cons it rest ih =>
    intro acc hacc
    simp only [List.foldl_cons]
    by_cases h : it.valueType ∈ acc
    · rw [if_pos h]; exact ih acc hacc
    · rw [if_neg h]
      exact ih _ (by simp [List.nodup_append, hacc, h])

theorem vtOrder_nodup (items : List Item) : (vtOrder items).Nodup :=
  vtOrder_go_nodup items [] List.nodup_nil

theorem groupItemsByValueType_eq (items : List Item) :
    groupItemsByValueType items =
      (vtOrder items).map fun vt => (vt, itemsOfType items vt) := by
  induction items using List.reverseRecOn with
  | nil => rfl
  | append_singleton xs x ih =>
    have hG : groupItemsByValueType (xs ++ [x]) =
        (if ((groupItemsByValueType xs).find? fun p => p.1 == x.valueType).isSome then
          (groupItemsByValueType xs).map
            fun p => if p.1 == x.valueType then (p.1, p.2 ++ [x]) else p
        else groupItemsByValueType xs ++ [(x.valueType, [x])]) := by
      show List.foldl _ [] (xs ++ [x]) = _
      rw [List.foldl_append]
      rfl
    have hV : vtOrder (xs ++ [x]) =
        (if x.valueType ∈ vtOrder xs then vtOrder xs else vtOrder xs ++ [x.valueType]) := by
      show List.foldl _ [] (xs ++ [x]) = _
      rw [List.foldl_append]
      rfl
    have hfind : (((vtOrder xs).map fun vt => (vt, itemsOfType xs vt)).find?
        fun p => p.1 == x.valueType).isSome ↔ x.valueType ∈ vtOrder xs := by
      rw [List.find?_map]
      simp only [Option.isSome_map', List.find?_isSome, Function.comp]
      constructor
      · rintro ⟨v, hv, hbe⟩
        rw [← eq_of_beq hbe]
        exact hv
      · intro hv
        exact ⟨x.valueType, hv, beq_self_eq_true x.valueType⟩
    by_cases hmem : x.valueType ∈ vtOrder xs
    · rw [hG, ih, if_pos (hfind.mpr hmem), hV, if_pos hmem, List.map_map]
      apply List.map_congr_left
      intro vt _
      simp only [Function.comp_apply]
      by_cases hvt : vt = x.valueType
      · have hb : ((vt : Int) == x.valueType) = true := beq_iff_eq.mpr hvt
        have hb' : (x.valueType == vt) = true := beq_iff_eq.mpr hvt.symm
        simp only [if_pos hb]
        simp [itemsOfType, List.filter_append, List.filter_cons, hb']
      · have hb : ((vt : Int) == x.valueType) = false := beq_eq_false_iff_ne.mpr hvt
        have hb' : (x.valueType == vt) = false := beq_eq_false_iff_ne.mpr fun h => hvt h.symm
        simp only [if_neg (by simp [hb] : ¬(((vt : Int) == x.valueType) = true))]
        simp [itemsOfType, List.filter_append, List.filter_cons, hb']
    · have hcond : ¬((((vtOrder xs).map fun vt => (vt, itemsOfType xs vt)).find?
          fun p => p.1 == x.valueType).isSome = true) := fun hcon => hmem (hfind.mp hcon)
      rw [hG, ih, if_neg hcond, hV, if_neg hmem, List.map_append]
      congr 1
      · apply List.map_congr_left
        intro vt hvt
        have hne : vt ≠ x.valueType := fun h => hmem (h ▸ hvt)
        have hb' : (x.valueType == vt) = false := beq_eq_false_iff_ne.mpr fun h => hne h.symm
        simp [itemsOfType, List.filter_append, List.filter_cons, hb']
      · have hempty : (xs.filter fun it => it.valueType == x.valueType) = [] := by
          rw [List.filter_eq_nil_iff]
          intro it hit hbe
          exact hmem ((vtOrder_mem xs x.valueType).mpr
            ((eq_of_beq hbe) ▸ List.mem_map_of_mem _ hit))
        simp [itemsOfType, List.filter_append, List.filter_cons, hempty]

theorem getHistoryLoop_ok (call : Int → List String → Except String (List HistoryPoint))
    (pts : Int → List String → List HistoryPoint)
    (hc : ∀ vt ids, call vt ids = .ok (pts vt ids)) :
    ∀ (groups : List (Int × List Item)) (acc : List HistoryPoint) (calls : List HistoryCall),
      getHistoryLoop call groups acc calls =
        (.ok (acc ++ (groups.map fun g => pts g.1 (g.2.map fun it => it.id)).flatten),
         calls ++ groups.map fun g => (⟨g.1, g.2.map fun it => it.id⟩ : HistoryCall)) := by
  intro groups
  induction groups with
  | nil => intro acc calls; simp [getHistoryLoop]
  | cons g rest ih =>
    intro acc calls
    obtain ⟨vt, its⟩ := g
    simp only [getHistoryLoop, hc, ih]
    simp

/-- C8: when every call succeeds, `GetHistory` issues exactly one
`history.get` call per distinct `value_type` (the trace is one entry per
element of the duplicate-free `vtOrder`, carrying exactly the ids of that
partition) and returns the concatenation of the per-call results; while
`GetTrend` issues the single `trend.get` call carrying all item ids,
whatever their value types. -/
theorem getHistory_partitions
    (call : Int → List String → Except String (List HistoryPoint))
    (tcall : List String → Except String (List TrendPoint))
    (pts : Int → List String → List HistoryPoint) (items : List Item)
    (hc : ∀ vt ids, call vt ids = .ok (pts vt ids)) :
    getHistory call items =
      (.ok ((vtOrder items).map
        fun vt => pts vt ((itemsOfType items vt).map fun it => it.id)).flatten,
       (vtOrder items).map
        fun vt => ⟨vt, (itemsOfType items vt).map fun it => it.id⟩) ∧
    (vtOrder items).Nodup ∧
    (∀ vt, vt ∈ vtOrder items ↔ vt ∈ items.map fun it => it.valueType) ∧
    getTrend tcall items = (tcall (items.map fun it => it.id), [items.map fun it => it.id]) := by
  refine ⟨?_, vtOrder_nodup items, vtOrder_mem items, rfl⟩
  rw [getHistory, groupItemsByValueType_eq, getHistoryLoop_ok call pts hc]
  simp only [List.map_map, List.nil_append]
  rfl

/-- Closed instantiation of `getHistory_partitions`: three items of value
types 0, 3, 0 produce two calls — `(0, [a, c])` then `(3, [b])` — and the
concatenated results. -/
theorem getHistory_partitions_witness :
    getHistory (fun vt _ => .ok [⟨"x", vt, 0, 0⟩])
        [⟨"a", "ia", 0, "h", [⟨"h", "H"⟩], "0"⟩, ⟨"b", "ib", 3, "h", [⟨"h", "H"⟩], "0"⟩,
         ⟨"c", "ic", 0, "h", [⟨"h", "H"⟩], "0"⟩] =
      (.ok [⟨"x", 0, 0, 0⟩, ⟨"x", 3, 0, 0⟩],
       [⟨0, ["a", "c"]⟩, ⟨3, ["b"]⟩]) ∧
    getTrend (fun ids => .ok [])
        [⟨"a", "ia", 0, "h", [⟨"h", "H"⟩], "0"⟩, ⟨"b", "ib", 3, "h", [⟨"h", "H"⟩], "0"⟩,
         ⟨"c", "ic", 0, "h", [⟨"h", "H"⟩], "0"⟩] =
      (.ok [], [["a", "b", "c"]]) := by
  have h := getHistory_partitions (fun vt _ => .ok [⟨"x", vt, 0, 0⟩]) (fun _ => .ok [])
    (fun vt _ => [⟨"x", vt, 0, 0⟩])
    [⟨"a", "ia", 0, "h", [⟨"h", "H"⟩], "0"⟩, ⟨"b", "ib", 3, "h", [⟨"h", "H"⟩], "0"⟩,
     ⟨"c", "ic", 0, "h", [⟨"h", "H"⟩], "0"⟩]
    (fun _ _ => rfl)
  refine ⟨?_, ?_⟩
  · rw [h.1]; rfl
  · rw [h.2.2.2]; rfl

/-! ## A small regular-expression engine

The filter-resolution loops call Go's `regexp.MatchString(pattern, name)`:
compile the pattern, then search (unanchored) for a match.  The fragment
of Go regexp syntax the claims exercise is embedded: literal characters,
`.`, grouping `(...)`, alternation `|`, repetition `* + ?`, anchors
`^ $`, and backslash-escaped literals.  Character classes (`[...]`) and
counted repetition are not modelled; patterns using them are out of this
model's scope.  An unbalanced `(` is a compile failure, as in Go. -/

inductive Re where
  | eps
  | char (c : Char)
  | dot
  | seq (a b : Re)
  | alt (a b : Re)
  | star (a : Re)
  | startAnchor
  | endAnchor
deriving DecidableEq, Repr

def Re.size : Re → Nat
  | .eps => 1
  | .char _ => 1
  | .dot => 1
  | .seq a b => a.size + b.size + 1
  | .alt a b => a.size + b.size + 1
  | .star a => a.size + 1
  | .startAnchor => 1
  | .endAnchor => 1

mutual

def parseAlt : Nat → List Char → Except String (Re × List Char)
  | 0, _ => .error "regexp too deeply nested"
  | fuel + 1, s => do
    let (a, rest) ← parseConcat fuel s
    match rest with
    | '|' :: rest1 => do
      let (b, rest2) ← parseAlt fuel rest1
      pure (.alt a b, rest2)
    | _ => pure (a, rest)

def parseConcat : Nat → List Char → Except String (Re × List Char)
  | 0, _ => .error "regexp too deeply nested"
  | fuel + 1, s =>
    match s with
    | [] => pure (.eps, [])
    | c :: _ =>
      if c = ')' || c = '|' then pure (.eps, s)
      else do
        let (a, rest) ← parseRep fuel s
        let (b, rest2) ← parseConcat fuel rest
        pure (.seq a b, rest2)

def parseRep : Nat → List Char → Except String (Re × List Char)
  | 0, _ => .error "regexp too deeply nested"
  | fuel + 1, s => do
    let (a, rest) ← parseAtom fuel s
    match rest with
    | '*' :: rest1 => pure (.star a, rest1)
    | '+' :: rest1 => pure (.seq a (.star a), rest1)
    | '?' :: rest1 => pure (.alt a .eps, rest1)
    | _ => pure (a, rest)

def parseAtom : Nat → List Char → Except String (Re × List Char)
  | 0, _ => .error "regexp too deeply nested"
  | fuel + 1, s =>
    match s with
    | [] => .error "unexpected end of regexp"
    | c :: cs =>
      if c = '(' then do
        let (a, rest) ← parseAlt fuel cs
        match rest with
        | ')' :: rest1 => pure (a, rest1)
        | _ => .error "missing closing )"
      else if c = '.' then pure (.dot, cs)
      else if c = '^' then pure (.startAnchor, cs)
      else if c = '$' then pure (.endAnchor, cs)
      else if c = '\\' then
        match cs with
        | [] => .error "trailing backslash"
        | e :: cs1 => pure (.char e, cs1)
      else if c = ')' || c = '|' || c = '*' || c = '+' || c = '?' || c = '[' then
        .error "unexpected token in regexp"
      else pure (.char c, cs)

end

/-- A compiled pattern with its flags (the `s` flag makes `.` match a
newline, the `i` flag folds case; `m` and `U` are accepted but their
semantics are outside the claims). -/
structure CompiledRe where
  re : Re
  dotAll : Bool
  ignoreCase : Bool
deriving Repr

def compileRegexWith (dotAll ignoreCase : Bool) (pattern : String) :
    Except String CompiledRe :=
  match parseAlt (4 * pattern.length + 8) pattern.data with
  | .error e => .error e
  | .ok (re, rest) =>
    match rest with
    | [] => .ok ⟨re, dotAll, ignoreCase⟩
    | _ => .error "unexpected )"

def charEq (ignoreCase : Bool) (a b : Char) : Bool :=
  if ignoreCase then a.toLower == b.toLower else a == b

/-- The matching relation: `reMatch … re atStart s` is the list of
(still-at-start?, remaining-input) states after matching `re` at the
current position; `atStart` tracks whether the position is the start of
the subject (for `^`).  Star iterations must consume input, so the fuel
bound below suffices. -/
def reMatch (dotAll ignoreCase : Bool) : Nat → Re → Bool → List Char → List (Bool × List Char)
  | 0, _, _, _ => []
  | fuel + 1, re, atStart, s =>
    match re with
    | .eps => [(atStart, s)]
    | .char c =>
      match s with
      | [] => []
      | d :: ds => if charEq ignoreCase c d then [(false, ds)] else []
    | .dot =>
      match s with
      | [] => []
      | d :: ds => if d = '\n' && !dotAll then [] else [(false, ds)]
    | .startAnchor => if atStart then [(atStart, s)] else []
    | .endAnchor => if s.isEmpty then [(atStart, s)] else []
    | .seq a b =>
      (reMatch dotAll ignoreCase fuel a atStart s).flatMap
        fun st => reMatch dotAll ignoreCase fuel b st.1 st.2
    | .alt a b =>
      reMatch dotAll ignoreCase fuel a atStart s ++ reMatch dotAll ignoreCase fuel b atStart s
    | .star a =>
      (atStart, s) ::
        ((reMatch dotAll ignoreCase fuel a atStart s).filter
          fun st => st.2.length < s.length).flatMap
          fun st => reMatch dotAll ignoreCase fuel (.star a) st.1 st.2

/-- Unanchored search: try a match at every position. -/
def reSearchFrom (dotAll ignoreCase : Bool) (re : Re) : Bool → List Char → Bool
  | atStart, s =>
    !(reMatch dotAll ignoreCase ((re.size + 1) * (s.length + 2) + 4) re atStart s).isEmpty ||
      (match s with
       | [] => false
       | _ :: rest => reSearchFrom dotAll ignoreCase re false rest)

def reSearch (cre : CompiledRe) (s : String) : Bool :=
  reSearchFrom cre.dotAll cre.ignoreCase cre.re true s.data

/-- Go's `regexp.MatchString(pattern, s)` as used directly by the
resolution loops in datasource.go: compile (no flags), then search. -/
def matchString (pattern s : String) : Except String Bool :=
  match compileRegexWith false false pattern with
  | .error e => .error e
  | .ok cre => .ok (reSearch cre s)

/-! ## Stage filtering and its error policy
(`getItems` datasource.go lines 467-477, `getGroups` lines 534-551,
`getHosts` lines 504-532, `getApps` lines 484-502)

Go source (the item stage):
```
filteredItems := zabbix.Items{}
for _, item := range items {
    if item.Status == "0" {
        matched, err := regexp.MatchString(itemFilter, item.Name)
        if err != nil {
            ds.logger.Warn(fmt.Errorf("RegExp failed: %w", err).Error())
        } else if matched {
            filteredItems = append(filteredItems, item)
        }
    }
}
```
and the group stage (hosts and applications are identical in shape):
```
filteredGroups := zabbix.Groups{}
for _, group := range groups {
    matched, err := regexp.MatchString(groupFilter, group.Name)
    if err != nil {
        return nil, err
    } else if matched {
        filteredGroups = append(filteredGroups, group)
    }
}
```
-/

/-- zabbix.Group. -/
structure ZGroup where
  id : String
  name : String
deriving DecidableEq, Repr

/-- zabbix.Host. -/
structure ZHost where
  id : String
  name : String
deriving DecidableEq, Repr

/-- zabbix.Application. -/
structure ZApp where
  id : String
  name : String
deriving DecidableEq, Repr

/-- The item-stage filter loop: a regex failure is logged and the item
skipped; the loop always completes. -/
def filterItems (itemFilter : String) (items : List Item) : List Item :=
  items.foldl
    (fun acc it =>
      if it.status == "0" then
        match matchString itemFilter it.name with
        | .error _ => acc
        | .ok matched => if matched then acc ++ [it] else acc
      else acc)
    ([] : List Item)

/-- The group-stage filter loop, one iteration at a time: a regex failure
aborts with the error. -/
def filterGroupsGo (groupFilter : String) : List ZGroup → List ZGroup →
    Except String (List ZGroup)
  | [], acc => .ok acc
  | g :: rest, acc =>
    match matchString groupFilter g.name with
    | .error e => .error e
    | .ok matched => filterGroupsGo groupFilter rest (if matched then acc ++ [g] else acc)

def filterGroups (groupFilter : String) (groups : List ZGroup) :
    Except String (List ZGroup) :=
  filterGroupsGo groupFilter groups []

/-- The host-stage filter loop (same error policy as groups). -/
def filterHostsGo (hostFilter : String) : List ZHost → List ZHost →
    Except String (List ZHost)
  | [], acc => .ok acc
  | h :: rest, acc =>
    match matchString hostFilter h.name with
    | .error e => .error e
    | .ok matched => filterHostsGo hostFilter rest (if matched then acc ++ [h] else acc)

def filterHosts (hostFilter : String) (hosts : List ZHost) :
    Except String (List ZHost) :=
  filterHostsGo hostFilter hosts []

/-- The application-stage filter loop (same error policy as groups). -/
def filterAppsGo (appFilter : String) : List ZApp → List ZApp →
    Except String (List ZApp)
  | [], acc => .ok acc
  | a :: rest, acc =>
    match matchString appFilter a.name with
    | .error e => .error e
    | .ok matched => filterAppsGo appFilter rest (if matched then acc ++ [a] else acc)

def filterApps (appFilter : String) (apps : List ZApp) :
    Except String (List ZApp) :=
  filterAppsGo appFilter apps []

theorem filterItems_go (f : String) (items : List Item) :
    ∀ acc : List Item,
      items.foldl
        (fun acc it =>
          if it.status == "0" then
            match matchString f it.name with
            | .error _ => acc
            | .ok matched => if matched then acc ++ [it] else acc
          else acc) acc =
      acc ++ items.filter fun it =>
        it.status == "0" &&
          (match matchString f it.name with | .ok true => true | _ => false) := by
  induction items with
  | nil => intro acc; simp
  | cons it rest ih =>
    intro acc
    rw [List.foldl_cons, ih, List.filter_cons]
    by_cases hst : (it.status == "0") = true
    · cases hm : matchString f it.name with
      | error e => simp [hst, hm]
      | ok b => cases b <;> simp [hst, hm]
    · have hst' : (it.status == "0") = false := by
        cases h : it.status == "0"
        · rfl
        · exact absurd h hst
      simp [hst']

theorem filterGroups_abort (f : String) :
    ∀ (gs : List ZGroup) (e : String),
      (∀ name, matchString f name = .error e) → gs ≠ [] →
      filterGroups f gs = .error e := by
  intro gs e herr hne
  cases gs with
  | nil => exact absurd rfl hne
  | cons g rest => simp [filterGroups, filterGroupsGo, herr g.name]

theorem filterGroupsGo_ok (f : String) (bs : ZGroup → Bool) :
    ∀ (gs : List ZGroup) (acc : List ZGroup),
      (∀ g ∈ gs, matchString f g.name = .ok (bs g)) →
      filterGroupsGo f gs acc = .ok (acc ++ gs.filter fun g => bs g) := by
  intro gs
  induction gs with
  | nil => intro acc _; simp [filterGroupsGo]
  | cons g rest ih =>
    intro acc hok
    have hg := hok g (List.mem_cons_self g rest)
    have hrest := fun x hx => hok x (List.mem_cons_of_mem g hx)
    simp only [filterGroupsGo, hg, List.filter_cons]
    cases hb : bs g
    · simp [hb, ih acc hrest]
    · simp [hb, ih (acc ++ [g]) hrest]

/-- C9: the item stage never aborts — its loop is total, equal to a filter
that drops items whose name-match errors (so a compile failure excludes
the affected items while the remaining ones continue to be processed) —
whereas a compile failure at the group, host or application stage aborts
the whole stage with the error; shown in general and on the concrete
invalid pattern `fooba(r`. -/
theorem filter_error_policy :
    (∀ f items, filterItems f items =
      items.filter fun it =>
        it.status == "0" &&
          (match matchString f it.name with | .ok true => true | _ => false)) ∧
    (∀ f (gs : List ZGroup) e, (∀ name, matchString f name = .error e) → gs ≠ [] →
      filterGroups f gs = .error e) ∧
    (∀ f (gs : List ZGroup) (bs : ZGroup → Bool),
      (∀ g ∈ gs, matchString f g.name = .ok (bs g)) →
      filterGroups f gs = .ok (gs.filter fun g => bs g)) ∧
    filterItems "fooba(r"
      [⟨"1", "item one", 0, "h", [], "0"⟩, ⟨"2", "item two", 0, "h", [], "0"⟩] = [] ∧
    filterItems "one"
      [⟨"1", "item one", 0, "h", [], "0"⟩, ⟨"2", "item two", 0, "h", [], "0"⟩] =
      [⟨"1", "item one", 0, "h", [], "0"⟩] ∧
    filterGroups "fooba(r" [⟨"1", "grp"⟩] = .error "missing closing )" ∧
    filterHosts "fooba(r" [⟨"1", "host"⟩] = .error "missing closing )" ∧
    filterApps "fooba(r" [⟨"1", "app"⟩] = .error "missing closing )" := by
  refine ⟨?_, filterGroups_abort, ?_, rfl, rfl, rfl, rfl, rfl⟩
  · intro f items
    have := filterItems_go f items []
    simpa [filterItems] using this
  · intro f gs bs hok
    exact filterGroupsGo_ok f bs gs [] hok

/-- Closed instantiation of `filter_error_policy`'s conditional parts:
the invalid pattern aborts the group stage of a non-empty group list, and
a valid pattern filters the groups to the matching ones. -/
theorem filter_error_policy_witness :
    filterGroups "fooba(r" [⟨"1", "grp one"⟩, ⟨"2", "grp two"⟩] =
      .error "missing closing )" ∧
    filterGroups "one" [⟨"1", "grp one"⟩, ⟨"2", "grp two"⟩] = .ok [⟨"1", "grp one"⟩] := by
  refine ⟨?_, ?_⟩
  · exact filter_error_policy.2.1 "fooba(r" [⟨"1", "grp one"⟩, ⟨"2", "grp two"⟩]
      "missing closing )" (fun name => rfl) (by simp)
  · have h := filter_error_policy.2.2.1 "one" [⟨"1", "grp one"⟩, ⟨"2", "grp two"⟩]
      (fun g => g.id == "1") (by intro g hg; fin_cases hg <;> rfl)
    rw [h]
    rfl

/-! ## No two-mode dispatch: the stages compile every filter as a regex

The cited stage code (`getGroups` datasource.go 534-551, `getHosts`
504-532, and the item/application stages alike) passes the filter string
straight to `regexp.MatchString(filter, name)`.  There is no inspection
of a `/…/[flags]` shape and no literal/substring mode: an empty filter is
the empty regex (matching everything), a bare invalid pattern such as
`fooba(r` is a compile failure on every name (aborting the group, host
and application stages, and excluding every item at the item stage), and
slashes in a filter such as `/foo/` or `/^foo.+/` are ordinary literal
characters of the pattern, not delimiters. -/

theorem reSearchFrom_eps (dotAll ignoreCase atStart : Bool) (s : List Char) :
    reSearchFrom dotAll ignoreCase .eps atStart s = true := by
  cases s with
  | nil => rfl
  | cons c rest => rfl

theorem matchString_empty_pattern (name : String) :
    matchString "" name = .ok true := by
  have h : matchString "" name =
      .ok (reSearchFrom false false .eps true name.data) := rfl
  rw [h, reSearchFrom_eps]

theorem filterItems_invalid_pattern (items : List Item) :
    filterItems "fooba(r" items = [] := by
  have h : filterItems "fooba(r" items =
      [] ++ items.filter fun it =>
        it.status == "0" &&
          (match matchString "fooba(r" it.name with
           | .ok true => true | _ => false) :=
    filterItems_go "fooba(r" items []
  rw [h, List.nil_append, List.filter_eq_nil_iff.mpr]
  intro it _
  have hm : matchString "fooba(r" it.name = .error "missing closing )" := rfl
  simp [hm]

theorem filterGroups_empty_pattern (gs : List ZGroup) :
    filterGroups "" gs = .ok gs := by
  have h := filterGroupsGo_ok "" (fun _ => true) gs []
    (fun g _ => matchString_empty_pattern g.name)
  simpa [filterGroups] using h

/-- C3 counterexample: at the cited stages there is no literal mode and no
delimiter stripping.  The bare filter `fooba(r` — which the claim says is
matched literally, so that the group named `xx fooba(r yy` would be kept —
is instead a regex-compile failure on every name, aborting the group
stage; and the delimiter-wrapped filter `/^foo.+/` — which the claim says
matches exactly the names matching `^foo.+`, such as `foobar` — does not
match `foobar`, because its slashes are literal pattern characters. -/
theorem stageFilter_two_mode_counterexample :
    matchString "fooba(r" "xx fooba(r yy" = .error "missing closing )" ∧
    filterGroups "fooba(r" [⟨"1", "xx fooba(r yy"⟩] = .error "missing closing )" ∧
    matchString "/^foo.+/" "foobar" = .ok false :=
  ⟨rfl, rfl, rfl⟩

/-- C3 (amended): every filter-resolution stage passes the filter string
directly to regex compilation and matching, with no two-mode dispatch.
An empty filter matches all candidates (the group stage returns its input
unchanged); a bare invalid pattern such as `fooba(r` is a compile failure
on every name — it aborts the group, host and application stages of any
non-empty candidate list and excludes every item at the item stage —
rather than matching literally; the delimiter-wrapped `/fooba(r/` is
likewise a compile failure; and slashes in a filter are literal pattern
characters, so `/foo/` matches the name `x/foo/y` but not `foo`, and
`/^foo.+/` does not match `foobar`. -/
theorem stageFilter_regex_always :
    (∀ name, matchString "" name = .ok true) ∧
    (∀ gs : List ZGroup, filterGroups "" gs = .ok gs) ∧
    (∀ name, matchString "fooba(r" name = .error "missing closing )") ∧
    (∀ name, matchString "/fooba(r/" name = .error "missing closing )") ∧
    (∀ (g : ZGroup) (rest : List ZGroup),
      filterGroups "fooba(r" (g :: rest) = .error "missing closing )") ∧
    (∀ (h : ZHost) (rest : List ZHost),
      filterHosts "fooba(r" (h :: rest) = .error "missing closing )") ∧
    (∀ (a : ZApp) (rest : List ZApp),
      filterApps "fooba(r" (a :: rest) = .error "missing closing )") ∧
    (∀ items, filterItems "fooba(r" items = []) ∧
    matchString "/^foo.+/" "foobar" = .ok false ∧
    matchString "/foo/" "x/foo/y" = .ok true ∧
    matchString "/foo/" "foo" = .ok false :=
  ⟨matchString_empty_pattern, filterGroups_empty_pattern,
   fun _ => rfl, fun _ => rfl,
   fun _ _ => rfl, fun _ _ => rfl, fun _ _ => rfl,
   filterItems_invalid_pattern, rfl, rfl, rfl⟩

end GrafanaZabbix
